import Mathlib

/-!
Verification of the typed dataflow execution engine in `engine_api.cpp`
(repository basicinsect/tazorlight).

The C++ core is shallowly embedded: each C++ function is translated into an
executable Lean definition operating on explicit graph state.  Notes on the
translation:

* C++ `double` payloads are modelled as `Int`.  Every numeric value exercised
  by the properties below is integral, and no property depends on IEEE-754
  rounding; arithmetic on integral doubles of this magnitude is exact.
* `std::unordered_map` containers are modelled as association lists keyed by
  the same keys; iteration order, which the spec says callers must not rely
  on, is the list order.
* The Taskflow executor runs one task per node under data-edge precedence
  constraints.  The embedding executes the tasks sequentially in the order of
  the Kahn queue, which is one legal topological schedule of that pool; the
  properties proved below are schedule-independent observables.
* The thread-local error buffer `g_last_error` is modelled as an effect: each
  boundary call returns `Option String`, `some m` meaning the call stored the
  message `m` (a `none` leaves the previous message in place).
-/

namespace Eng

/-- `enum class Type { Number, String, Bool }`. -/
inductive Ty where
  | number : Ty
  | string : Ty
  | bool : Ty
deriving DecidableEq, Repr

/-- `struct Value`: tagged union over double / string / bool.  The `double`
payload is modelled as `Int` (see the module comment). -/
inductive Value where
  | num (v : Int) : Value
  | str (s : String) : Value
  | boolean (b : Bool) : Value
deriving DecidableEq, Repr

/-- The tag carried by a `Value`. -/
def Value.tag : Value → Ty
  | .num _ => .number
  | .str _ => .string
  | .boolean _ => .bool

/-- `struct ParamSpec`. -/
structure ParamSpec where
  name : String
  type : Ty
  defaultValue : Value
  enumOptions : List String
  description : String

/-- `using ComputeFn = bool(*)(Node&, std::string&)`: a compute reads the
node's `inputValues` and `params` and either produces the new `outputValues`
or a failure reason. -/
def ComputeFn : Type := List Value → List (String × Value) → Except String (List Value)

/-- `struct NodeType`. -/
structure NodeType where
  name : String
  inputs : List Ty
  outputs : List Ty
  params : List ParamSpec
  version : String
  description : String
  compute : ComputeFn

/-- `struct Node`.  The C++ node holds a borrowed pointer into the immutable
registry; the model stores the `NodeType` by value. -/
structure Node where
  id : Int
  type : NodeType
  name : String
  params : List (String × Value)
  inputValues : List Value
  outputValues : List Value

/-- `struct Edge { int fromNode; int fromOut; int toNode; int toIn; }`. -/
structure Edge where
  fromNode : Int
  fromOut : Int
  toNode : Int
  toIn : Int
deriving DecidableEq, Repr

/-- `struct OutputPin { int node; int outIdx; }`. -/
structure OutputPin where
  node : Int
  outIdx : Int
deriving DecidableEq, Repr

/-- `struct ControlEdge { int fromNode; int fromOut; int toNode; bool condition; }`. -/
structure ControlEdge where
  fromNode : Int
  fromOut : Int
  toNode : Int
  condition : Bool
deriving DecidableEq, Repr

/-- `enum class NodeExecutionState`. -/
inductive ExecState where
  | pending : ExecState
  | active : ExecState
  | skipped : ExecState
  | completed : ExecState
deriving DecidableEq, Repr

/-- `n.params.find(key)` on the parameter map. -/
def findParam (ps : List (String × Value)) (k : String) : Option Value :=
  (ps.find? (fun kv => kv.1 == k)).map (fun kv => kv.2)

/-- `n.params[key] = v` (unordered_map upsert). -/
def upsertParam (ps : List (String × Value)) (k : String) (v : Value) : List (String × Value) :=
  if ps.any (fun kv => kv.1 == k) then
    ps.map (fun kv => if kv.1 == k then (k, v) else kv)
  else
    ps ++ [(k, v)]

/-- Compute of the `Number` builtin: emit the `value` parameter when present
with a Number tag, else 0. -/
def numberCompute : ComputeFn := fun _ ps =>
  let v : Int := match findParam ps "value" with
    | some (.num x) => x
    | _ => 0
  .ok [.num v]

/-- Compute of the `String` builtin. -/
def stringCompute : ComputeFn := fun _ ps =>
  let s : String := match findParam ps "text" with
    | some (.str x) => x
    | _ => ""
  .ok [.str s]

/-- Compute of the `Bool` builtin. -/
def boolCompute : ComputeFn := fun _ ps =>
  let b : Bool := match findParam ps "value" with
    | some (.boolean x) => x
    | _ => false
  .ok [.boolean b]

/-- Compute of `AddNumber` (template instance `createAddNode<Type::Number>`). -/
def addNumberCompute : ComputeFn := fun ins _ =>
  match ins with
  | [.num a, .num b] => .ok [.num (a + b)]
  | _ => .error "AddNumber: invalid inputs"

/-- Compute of `ClampNumber`: `std::clamp(value, min, max)`, i.e.
`value < min ? min : (max < value ? max : value)`. -/
def clampNumberCompute : ComputeFn := fun ins _ =>
  match ins with
  | [.num v, .num lo, .num hi] =>
      .ok [.num (if v < lo then lo else if hi < v then hi else v)]
  | _ => .error "ClampNumber: invalid inputs (expects value, min, max)"

/-- Compute of `Multiply`. -/
def multiplyCompute : ComputeFn := fun ins _ =>
  match ins with
  | [.num a, .num b] => .ok [.num (a * b)]
  | _ => .error "Multiply: invalid inputs"

/-- Lowercase hexadecimal digits of a natural number (at least one digit). -/
def hexRepr (fuel : Nat) (n : Nat) : String :=
  match fuel with
  | 0 => ""
  | fuel + 1 =>
      let d := n % 16
      let c := if d < 10 then Char.ofNat (48 + d) else Char.ofNat (87 + d)
      if n < 16 then String.singleton c else hexRepr fuel (n / 16) ++ String.singleton c

/-- `os << std::hex << (int)value`: the double is truncated to a 32-bit int
(integral in this model) and printed as its unsigned bit pattern in hex. -/
def hexOfInt (v : Int) : String :=
  hexRepr 16 (v.emod 4294967296).toNat

/-- `std::to_string(double)` for integral doubles: `%.6f`, six fixed decimals. -/
def cppToString6 (v : Int) : String :=
  (if v < 0 then "-" else "") ++ toString v.natAbs ++ ".000000"

/-- `os << std::scientific << value` for integral doubles: `d.dddddde+XX`. -/
def sciRepr (v : Int) : String :=
  let sign := if v < 0 then "-" else ""
  let ds := (toString v.natAbs).data
  let exp := ds.length - 1
  let mant := (ds ++ List.replicate 7 (Char.ofNat 48)).take 7
  let expStr := (if exp < 10 then "0" else "") ++ toString exp
  sign ++ String.singleton (mant.headD (Char.ofNat 48)) ++ "." ++
    String.mk (mant.drop 1) ++ "e+" ++ expStr

/-- `os << value` (ostream default, 6 significant digits) for integral
doubles: plain digits below 10^6, else scientific with trailing zeros of the
mantissa stripped.  Never exercised by the properties below. -/
def ostreamDefault (v : Int) : String :=
  if v.natAbs < 1000000 then toString v
  else
    let sign := if v < 0 then "-" else ""
    let ds := (toString v.natAbs).data
    let exp := ds.length - 1
    let mant6 := (ds ++ List.replicate 6 (Char.ofNat 48)).take 6
    let stripped := (mant6.reverse.dropWhile (fun c => c = Char.ofNat 48)).reverse
    let mant := if stripped.isEmpty then [Char.ofNat 48] else stripped
    let expStr := (if exp < 10 then "0" else "") ++ toString exp
    sign ++ String.singleton (mant.headD (Char.ofNat 48)) ++
      (if mant.length ≤ 1 then "" else "." ++ String.mk (mant.drop 1)) ++ "e+" ++ expStr

/-- `os << std::fixed << value`: default precision 6, same as `%.6f`. -/
def fixedRepr (v : Int) : String := cppToString6 v

/-- Compute of `ToString`: formats the number per the `format` parameter. -/
def toStringCompute : ComputeFn := fun ins ps =>
  match ins with
  | [.num v] =>
      let format : String := match findParam ps "format" with
        | some (.str f) => f
        | _ => "default"
      let s :=
        if format == "fixed" then fixedRepr v
        else if format == "scientific" then sciRepr v
        else if format == "hex" then hexOfInt v
        else ostreamDefault v
      .ok [.str s]
  | _ => .error "ToString: invalid input"

/-- Compute of `Concat`. -/
def concatCompute : ComputeFn := fun ins _ =>
  match ins with
  | [.str a, .str b] => .ok [.str (a ++ b)]
  | _ => .error "Concat: invalid inputs"

/-- Compute of `OutputNumber`. -/
def outputNumberCompute : ComputeFn := fun ins _ =>
  match ins with
  | [.num a] => .ok [.num a]
  | _ => .error "OutputNumber expects Number"

/-- Compute of `OutputString`. -/
def outputStringCompute : ComputeFn := fun ins _ =>
  match ins with
  | [.str a] => .ok [.str a]
  | _ => .error "OutputString expects String"

/-- Compute of `If`: output 0 (`then`) is the condition, output 1 (`else`)
is its negation. -/
def ifCompute : ComputeFn := fun ins _ =>
  match ins with
  | [.boolean c] => .ok [.boolean c, .boolean (!c)]
  | _ => .error "If node expects Bool condition input"

/-- Compute of `Merge`: requires two inputs; reads each as a number when it
carries the Number tag (0 otherwise) and emits the first if non-zero, else
the second. -/
def mergeCompute : ComputeFn := fun ins _ =>
  match ins with
  | [a, b] =>
      let thenVal : Int := match a with | .num x => x | _ => 0
      let elseVal : Int := match b with | .num x => x | _ => 0
      .ok [.num (if thenVal ≠ 0 then thenVal else elseVal)]
  | _ => .error "Merge node expects 2 inputs (then_input, else_input)"

/-- `registry["Number"]`. -/
def numberType : NodeType :=
  { name := "Number", inputs := [], outputs := [.number]
    params := [{ name := "value", type := .number, defaultValue := .num 0,
                 enumOptions := [], description := "The numeric value" }]
    version := "1.0.0", description := "A constant number node"
    compute := numberCompute }

/-- `registry["String"]`. -/
def stringType : NodeType :=
  { name := "String", inputs := [], outputs := [.string]
    params := [{ name := "text", type := .string, defaultValue := .str "",
                 enumOptions := [], description := "The string value" }]
    version := "1.0.0", description := "A constant string node"
    compute := stringCompute }

/-- `registry["Bool"]`. -/
def boolType : NodeType :=
  { name := "Bool", inputs := [], outputs := [.bool]
    params := [{ name := "value", type := .bool, defaultValue := .boolean false,
                 enumOptions := [], description := "The boolean value" }]
    version := "1.0.0", description := "A constant boolean node"
    compute := boolCompute }

/-- `createAddNode<Type::Number>()`; also stored under the legacy key
`"Add"`. -/
def addNumberType : NodeType :=
  { name := "AddNumber", inputs := [.number, .number], outputs := [.number]
    params := [], version := "1.0.0", description := "Adds two numbers together"
    compute := addNumberCompute }

/-- `createClampNode<Type::Number>()`. -/
def clampNumberType : NodeType :=
  { name := "ClampNumber", inputs := [.number, .number, .number], outputs := [.number]
    params := [], version := "1.0.0"
    description := "Clamps a value between min and max bounds"
    compute := clampNumberCompute }

/-- `registry["Multiply"]`. -/
def multiplyType : NodeType :=
  { name := "Multiply", inputs := [.number, .number], outputs := [.number]
    params := [], version := "1.0.0", description := "Multiplies two numbers together"
    compute := multiplyCompute }

/-- `registry["ToString"]`. -/
def toStringType : NodeType :=
  { name := "ToString", inputs := [.number], outputs := [.string]
    params := [{ name := "format", type := .string, defaultValue := .str "default",
                 enumOptions := ["default", "fixed", "scientific", "hex"],
                 description := "Number formatting style" }]
    version := "1.0.0", description := "Converts a number to string with formatting options"
    compute := toStringCompute }

/-- `registry["Concat"]`. -/
def concatType : NodeType :=
  { name := "Concat", inputs := [.string, .string], outputs := [.string]
    params := [], version := "1.0.0", description := "Concatenates two strings"
    compute := concatCompute }

/-- `registry["OutputNumber"]`. -/
def outputNumberType : NodeType :=
  { name := "OutputNumber", inputs := [.number], outputs := [.number]
    params := [], version := "1.0.0", description := "Outputs a number value"
    compute := outputNumberCompute }

/-- `registry["OutputString"]`. -/
def outputStringType : NodeType :=
  { name := "OutputString", inputs := [.string], outputs := [.string]
    params := [], version := "1.0.0", description := "Outputs a string value"
    compute := outputStringCompute }

/-- `registry["If"]`: condition input, then/else outputs. -/
def ifType : NodeType :=
  { name := "If", inputs := [.bool], outputs := [.bool, .bool]
    params := [], version := "1.0.0"
    description := "Conditional branching node - routes execution based on boolean condition"
    compute := ifCompute }

/-- `registry["Merge"]`. -/
def mergeType : NodeType :=
  { name := "Merge", inputs := [.number, .number], outputs := [.number]
    params := [], version := "1.0.0"
    description := "Merges data from conditional branches - passes through the active input"
    compute := mergeCompute }

/-- The registry seeded by `registerBuiltins`.  The key `"Add"` aliases the
`AddNumber` node type (whose `name` field is `"AddNumber"`).  The registry is
identical for every graph, so it is a single global definition. -/
def registry : List (String × NodeType) :=
  [("Number", numberType), ("String", stringType), ("Bool", boolType),
   ("AddNumber", addNumberType), ("ClampNumber", clampNumberType),
   ("Add", addNumberType), ("Multiply", multiplyType), ("ToString", toStringType),
   ("Concat", concatType), ("OutputNumber", outputNumberType),
   ("OutputString", outputStringType), ("If", ifType), ("Merge", mergeType)]

/-- `registry.find(name)`. -/
def registryFind (name : String) : Option NodeType :=
  (registry.find? (fun kv => kv.1 == name)).map (fun kv => kv.2)

/-- `struct Graph` (the registry is the global `registry` above). -/
structure Graph where
  nodes : List Node
  edges : List Edge
  outputs : List OutputPin
  lastError : String
  executionStates : List (Int × ExecState)
  controlEdges : List ControlEdge

/-- A freshly constructed graph (`engine_graph_create`). -/
def emptyGraph : Graph :=
  { nodes := [], edges := [], outputs := [], lastError := ""
    executionStates := [], controlEdges := [] }

/-- `Graph::getNode`. -/
def getNode (g : Graph) (id : Int) : Option Node :=
  g.nodes.find? (fun n => n.id == id)

/-- Replace the node with the given id (in-place mutation through the map). -/
def updateNode (g : Graph) (id : Int) (f : Node → Node) : Graph :=
  { g with nodes := g.nodes.map (fun n => if n.id == id then f n else n) }

/-- `g.executionStates[id] = st` (unordered_map upsert). -/
def setState (g : Graph) (id : Int) (st : ExecState) : Graph :=
  { g with executionStates :=
      if g.executionStates.any (fun kv => kv.1 == id) then
        g.executionStates.map (fun kv => if kv.1 == id then (id, st) else kv)
      else
        g.executionStates ++ [(id, st)] }

/-- Read a node's execution state (Pending when absent, matching the
default-constructed map entry). -/
def stateOf (g : Graph) (id : Int) : ExecState :=
  ((g.executionStates.find? (fun kv => kv.1 == id)).map (fun kv => kv.2)).getD .pending

/-- Result of a boundary call: the graph, the integer return code, and the
message stored into the thread-local error buffer, if any. -/
structure ApiResult where
  g : Graph
  code : Int
  msg : Option String

/-- `engine_graph_add_node_with_id` (non-null arguments). -/
def engineGraphAddNodeWithId (g : Graph) (nodeId : Int) (tyName : String) (nm : String) :
    ApiResult :=
  if g.nodes.any (fun n => n.id == nodeId) then
    { g := g, code := 2, msg := some "add_node: duplicate id" }
  else
    match registryFind tyName with
    | none =>
        { g := g, code := 3
          msg := some ("add_node: unknown type \x27" ++ tyName ++ "\x27") }
    | some ty =>
        let n : Node :=
          { id := nodeId, type := ty, name := nm, params := []
            inputValues := ty.inputs.map (fun _ => Value.num 0)
            outputValues := [] }
        { g := { g with nodes := g.nodes ++ [n] }, code := 0, msg := none }

/-- `engine_graph_set_param_number`. -/
def engineGraphSetParamNumber (g : Graph) (nodeId : Int) (key : String) (v : Int) :
    ApiResult :=
  match getNode g nodeId with
  | none => { g := g, code := 2, msg := some "set_param_number: unknown node" }
  | some _ =>
      { g := updateNode g nodeId (fun n => { n with params := upsertParam n.params key (.num v) })
        code := 0, msg := none }

/-- `engine_graph_set_param_string`. -/
def engineGraphSetParamString (g : Graph) (nodeId : Int) (key : String) (v : String) :
    ApiResult :=
  match getNode g nodeId with
  | none => { g := g, code := 2, msg := some "set_param_string: unknown node" }
  | some _ =>
      { g := updateNode g nodeId (fun n => { n with params := upsertParam n.params key (.str v) })
        code := 0, msg := none }

/-- `engine_graph_set_param_bool` (`!!value`). -/
def engineGraphSetParamBool (g : Graph) (nodeId : Int) (key : String) (v : Bool) :
    ApiResult :=
  match getNode g nodeId with
  | none => { g := g, code := 2, msg := some "set_param_bool: unknown node" }
  | some _ =>
      { g := updateNode g nodeId
          (fun n => { n with params := upsertParam n.params key (.boolean v) })
        code := 0, msg := none }

/-- `engine_graph_connect`: existence, port range and tag-equality checks, in
the order of the source; only then is the edge appended. -/
def engineGraphConnect (g : Graph) (fromNode fromOut toNode toIn : Int) : ApiResult :=
  match getNode g fromNode, getNode g toNode with
  | some a, some b =>
      if fromOut < 0 ∨ (a.type.outputs.length : Int) ≤ fromOut then
        { g := g, code := 3, msg := some "connect: from_out OOB" }
      else if toIn < 0 ∨ (b.type.inputs.length : Int) ≤ toIn then
        { g := g, code := 4, msg := some "connect: to_in OOB" }
      else if a.type.outputs[fromOut.toNat]? ≠ b.type.inputs[toIn.toNat]? then
        { g := g, code := 5, msg := some "connect: socket type mismatch" }
      else
        { g := { g with edges := g.edges ++ [{ fromNode := fromNode, fromOut := fromOut,
                                               toNode := toNode, toIn := toIn }] }
          code := 0, msg := none }
  | _, _ => { g := g, code := 2, msg := some "connect: unknown node id" }

/-- `engine_graph_add_output`. -/
def engineGraphAddOutput (g : Graph) (nodeId outIndex : Int) : ApiResult :=
  match getNode g nodeId with
  | none => { g := g, code := 2, msg := some "add_output: unknown node id" }
  | some n =>
      if outIndex < 0 ∨ (n.type.outputs.length : Int) ≤ outIndex then
        { g := g, code := 3, msg := some "add_output: out_index OOB" }
      else
        { g := { g with outputs := g.outputs ++ [{ node := nodeId, outIdx := outIndex }] }
          code := 0, msg := none }

/-- One character of `escapeJson`. -/
def escapeChar (c : Char) : String :=
  if c = Char.ofNat 34 then "\\\""
  else if c = Char.ofNat 92 then "\\\\"
  else if c = Char.ofNat 8 then "\\b"
  else if c = Char.ofNat 12 then "\\f"
  else if c = Char.ofNat 10 then "\\n"
  else if c = Char.ofNat 13 then "\\r"
  else if c = Char.ofNat 9 then "\\t"
  else String.singleton c

/-- `escapeJson`: escape the quote, backslash and the five control
characters b f n r t, one character at a time. -/
def escapeJson (s : String) : String :=
  String.join (s.data.map escapeChar)

/-- `typeToString`. -/
def typeToString : Ty → String
  | .number => "number"
  | .string => "string"
  | .bool => "bool"

/-- `valueToJson`: numbers via `std::to_string` (fixed six decimals), strings
quoted and escaped, booleans as literals. -/
def valueToJson : Value → String
  | .num v => cppToString6 v
  | .str s => "\"" ++ escapeJson s ++ "\""
  | .boolean b => if b then "true" else "false"

/-- Comma-joined pieces. -/
def commaJoin (xs : List String) : String :=
  String.join (xs.intersperse ",")

/-- One parameter object inside `nodeTypeToJson`. -/
def paramSpecToJson (p : ParamSpec) : String :=
  "\x7b" ++
  "\"name\":\"" ++ escapeJson p.name ++ "\"," ++
  "\"type\":\"" ++ typeToString p.type ++ "\"," ++
  "\"default\":" ++ valueToJson p.defaultValue ++ "," ++
  "\"description\":\"" ++ escapeJson p.description ++ "\"" ++
  (if p.enumOptions.isEmpty then ""
   else ",\"enum\":[" ++ commaJoin (p.enumOptions.map (fun s => "\"" ++ escapeJson s ++ "\"")) ++ "]") ++
  "\x7d"

/-- `nodeTypeToJson`. -/
def nodeTypeToJson (nt : NodeType) : String :=
  "\x7b" ++
  "\"name\":\"" ++ escapeJson nt.name ++ "\"," ++
  "\"version\":\"" ++ escapeJson nt.version ++ "\"," ++
  "\"description\":\"" ++ escapeJson nt.description ++ "\"," ++
  "\"inputs\":[" ++ commaJoin (nt.inputs.map (fun t => "\"" ++ typeToString t ++ "\"")) ++ "]," ++
  "\"outputs\":[" ++ commaJoin (nt.outputs.map (fun t => "\"" ++ typeToString t ++ "\"")) ++ "]," ++
  "\"params\":[" ++ commaJoin (nt.params.map paramSpecToJson) ++ "]" ++
  "\x7d"

/-- `engine_get_type_spec` for a known type name. -/
def engineGetTypeSpec (tyName : String) : Option String :=
  (registryFind tyName).map nodeTypeToJson

/-!  The schedule analyzer (`build_schedule`) and the executor
(`runGraphTaskflow`). -/

/-- One step of building the input map: `vec.resize(toIn+1, {-1,-1});
vec[toIn] = {fromNode, fromOut}`. -/
def updSlots (v : List (Int × Int)) (e : Edge) : List (Int × Int) :=
  let v := if v.length ≤ e.toIn.toNat then
    v ++ List.replicate (e.toIn.toNat + 1 - v.length) ((-1 : Int), (-1 : Int))
  else v
  v.set e.toIn.toNat (e.fromNode, e.fromOut)

/-- Fold one edge into the `inputs` map (`inputs[e.toNode]` via operator[]). -/
def addEdgeToInputs (m : List (Int × List (Int × Int))) (e : Edge) :
    List (Int × List (Int × Int)) :=
  if m.any (fun kv => kv.1 == e.toNode) then
    m.map (fun kv => if kv.1 == e.toNode then (kv.1, updSlots kv.2 e) else kv)
  else
    m ++ [(e.toNode, updSlots [] e)]

/-- The per-target-slot input map built by `build_schedule`'s edge loop. -/
def buildInputs (edges : List Edge) : List (Int × List (Int × Int)) :=
  edges.foldl addEdgeToInputs []

/-- The source node of the edge exists and its type is named `"If"`
(the control-edge derivation test of `build_schedule`). -/
def ifSrcB (g : Graph) (e : Edge) : Bool :=
  match getNode g e.fromNode with
  | some fn => fn.type.name == "If"
  | none => false

/-- The derived control edges: for every data edge whose (existing) source
node is of the type named `"If"`, a record with `condition = (fromOut == 0)`. -/
def buildControlEdges (g : Graph) (edges : List Edge) : List ControlEdge :=
  edges.filterMap (fun e =>
    if ifSrcB g e then
      some { fromNode := e.fromNode, fromOut := e.fromOut, toNode := e.toNode,
             condition := e.fromOut == (0 : Int) }
    else none)

/-- `indeg[v]` after the edge loop: the number of edges into `v`. -/
def inCount (edges : List Edge) (v : Int) : Int :=
  ((edges.filter (fun e => e.toNode == v)).length : Int)

/-- `fanout[u]`: the edges out of `u`, in declaration order. -/
def fanout (edges : List Edge) (u : Int) : List Edge :=
  edges.filter (fun e => e.fromNode == u)

/-- The inner loop of Kahn's algorithm: `for (auto& e : fanout[u]) if
(--indeg[e.toNode] == 0) q.push_back(e.toNode)`. -/
def decTargets (es : List Edge) (indeg : Int → Int) (q : List Int) :
    (Int → Int) × List Int :=
  match es with
  | [] => (indeg, q)
  | e :: rest =>
      let d := fun v => if v = e.toNode then indeg v - 1 else indeg v
      let q2 := if d e.toNode = 0 then q ++ [e.toNode] else q
      decTargets rest d q2

/-- The outer loop of Kahn's algorithm over the growing queue, reading
position `i`.  The fuel passed by `runGraphTaskflow` always suffices (proved
below), so the fuel-exhausted branch is never taken on well-formed graphs. -/
def kahnLoop (edges : List Edge) : Nat → Nat → (Int → Int) → List Int →
    ((Int → Int) × List Int) :=
  fun fuel i indeg q =>
    match fuel with
    | 0 => (indeg, q)
    | fuel + 1 =>
        if h : i < q.length then
          let p := decTargets (fanout edges (q.get ⟨i, h⟩)) indeg q
          kahnLoop edges fuel (i + 1) p.1 p.2
        else (indeg, q)

/-- The full Kahn run of `build_schedule`: seed the queue with the
zero-indegree nodes in map order, drain, and return the final indegree map
and queue. -/
def kahn (ids : List Int) (edges : List Edge) : (Int → Int) × List Int :=
  let indeg0 := fun v => inCount edges v
  let q0 := ids.filter (fun v => inCount edges v == 0)
  kahnLoop edges (ids.length + 1) 0 indeg0 q0

/-- `build_schedule`'s cycle verdict: some node's entry retains a non-zero
indegree after the queue drains. -/
def kahnLeftover (ids : List Int) (edges : List Edge) : Bool :=
  ids.any (fun v => (kahn ids edges).1 v != 0)

/-- `std:vector::resize` on a value list: truncate, or grow with
value-initialized `Value`s (tag `Number`, payload 0). -/
def resizeValues (vs : List Value) (n : Nat) : List Value :=
  vs.take n ++ List.replicate (n - vs.length) (Value.num 0)

/-- The input-pull loop of a node task: for each slot, an unbound sentinel
(`src < 0`) keeps the current value; a bound slot reads the source's
`outputValues[sout]`, failing when the source or the index is missing.
Returns the values written so far (partial on failure, as in the source,
where the loop mutates `n->inputValues` in place) and the success flag. -/
def pullLoop (g : Graph) (slots : List (Int × Int)) (i : Nat) (vals : List Value) :
    List Value × Bool :=
  match slots with
  | [] => (vals, true)
  | (src, sout) :: rest =>
      if src < 0 then pullLoop g rest (i + 1) vals
      else
        match getNode g src with
        | none => (vals, false)
        | some up =>
            if sout < 0 ∨ (up.outputValues.length : Int) ≤ sout then (vals, false)
            else
              match up.outputValues[sout.toNat]? with
              | some v => pullLoop g rest (i + 1) (vals.set i v)
              | none => (vals, false)

/-- The active part of a node task after the gate: mark Active, pull inputs
per the map, invoke compute; on a dangling read or compute failure set the
error and the `failed` flag. -/
def execNodeActive (inputsM : List (Int × List (Int × Int))) (g : Graph) (id : Int)
    (n : Node) : Graph × Bool :=
  let g := setState g id .active
  let pulled : Graph × Option (List Value) :=
    match inputsM.find? (fun kv => kv.1 == id) with
    | none => (g, some n.inputValues)
    | some (_, slots) =>
        let vals0 := resizeValues n.inputValues slots.length
        let (vals, ok) := pullLoop g slots 0 vals0
        let g := updateNode g id (fun m => { m with inputValues := vals })
        if ok then (g, some vals)
        else ({ g with lastError := "Dangling edge or output index OOB" }, none)
  match pulled with
  | (g, none) => (g, true)
  | (g, some vals) =>
      match n.type.compute vals n.params with
      | .error e =>
          ({ g with lastError := n.type.name ++ " compute failed: " ++ e }, true)
      | .ok outs =>
          (setState (updateNode g id (fun m => { m with outputValues := outs })) id .completed,
           false)

/-- One node task.  The gate: the node is controlled by the first control
edge targeting it, if any; a controlling If with id -1 bypasses the gate
(the source compares `controllingIfNode != -1`); a missing or output-less
controlling If, or an inactive branch, marks the node Skipped.  A
`std::get<bool>` on a non-Bool output 0 would throw in the source; the model
maps that (unreachable) case to a failed run. -/
def execNode (inputsM : List (Int × List (Int × Int))) (ctrls : List ControlEdge)
    (s : Graph × Bool) (id : Int) : Graph × Bool :=
  let (g, failed) := s
  if failed then s
  else
    match getNode g id with
    | none => s
    | some n =>
        match ctrls.find? (fun c => c.toNode == id) with
        | some c =>
            if c.fromNode ≠ -1 then
              match getNode g c.fromNode with
              | none => (setState g id .skipped, failed)
              | some ifn =>
                  match ifn.outputValues.head? with
                  | none => (setState g id .skipped, failed)
                  | some (.boolean ifCondition) =>
                      if c.condition == ifCondition then execNodeActive inputsM g id n
                      else (setState g id .skipped, failed)
                  | some _ => ({ g with lastError := "bad_variant_access" }, true)
            else execNodeActive inputsM g id n
        | none => execNodeActive inputsM g id n

/-- Per-run setup: reseed every node's `inputValues` with `Value::num(0.0)`
per input slot, clear every `outputValues`, reset every execution state to
Pending. -/
def runSetup (g : Graph) : Graph :=
  { g with
      nodes := g.nodes.map (fun n =>
        { n with inputValues := n.type.inputs.map (fun _ => Value.num 0)
                 outputValues := [] })
      executionStates := g.nodes.map (fun n => (n.id, ExecState.pending)) }

/-- `runGraphTaskflow`: per-run setup, schedule analysis (input map, control
edges, Kahn), abort on cycle, then the node tasks.  The embedding executes
the tasks sequentially along the Kahn queue, one legal topological schedule
of the Taskflow pool. -/
def runGraphTaskflow (g0 : Graph) : Graph × Bool :=
  let g := runSetup g0
  let ids := g.nodes.map (fun n => n.id)
  let inputsM := buildInputs g.edges
  let ces := buildControlEdges g g.edges
  let g := { g with controlEdges := ces }
  if kahnLeftover ids g.edges then
    ({ g with lastError := "Cycle detected in graph" }, false)
  else
    let order := (kahn ids g.edges).2
    let (gF, failed) := order.foldl (fun s id => execNode inputsM ces s id) (g, false)
    (gF, !failed)

/-- `engine_graph_run`. -/
def engineGraphRun (g : Graph) : ApiResult :=
  let (g2, ok) := runGraphTaskflow g
  if ok then { g := g2, code := 0, msg := none }
  else
    { g := g2, code := 2
      msg := some (if g2.lastError == "" then "execution failed" else g2.lastError) }

/-- `eng_type_t` at the C boundary. -/
inductive CTy where
  | engTypeNumber : CTy
  | engTypeString : CTy
  | engTypeBool : CTy
deriving DecidableEq, Repr

/-- `toC`. -/
def toC : Ty → CTy
  | .number => .engTypeNumber
  | .string => .engTypeString
  | .bool => .engTypeBool

/-- `engine_graph_get_output_count`. -/
def engineGraphGetOutputCount (g : Graph) : Int :=
  (g.outputs.length : Int)

/-- `engine_graph_get_output_type`: every failure path returns
`ENG_TYPE_NUMBER`, indistinguishable from a genuine Number pin; the
thread-local error buffer is never written. -/
def engineGraphGetOutputType (g : Graph) (index : Int) : CTy :=
  match g.outputs[index.toNat]? with
  | none => .engTypeNumber
  | some pin =>
      if index < 0 then .engTypeNumber
      else
        match getNode g pin.node with
        | none => .engTypeNumber
        | some n =>
            if pin.outIdx < 0 ∨ (n.outputValues.length : Int) ≤ pin.outIdx then .engTypeNumber
            else
              match n.outputValues[pin.outIdx.toNat]? with
              | some v => toC v.tag
              | none => .engTypeNumber

/-- `engine_graph_get_output_number` (non-null arguments): bare return codes
1–5 and the value through the out-pointer; `g_last_error` is never written
(the `msg` component is always `none`). -/
def engineGraphGetOutputNumber (g : Graph) (index : Int) : Int × Option Int × Option String :=
  if index < 0 ∨ (g.outputs.length : Int) ≤ index then (2, none, none)
  else
    match g.outputs[index.toNat]? with
    | none => (2, none, none)
    | some pin =>
        match getNode g pin.node with
        | none => (3, none, none)
        | some n =>
            if pin.outIdx < 0 ∨ (n.outputValues.length : Int) ≤ pin.outIdx then (4, none, none)
            else
              match n.outputValues[pin.outIdx.toNat]? with
              | some (.num v) => (0, some v, none)
              | some _ => (5, none, none)
              | none => (4, none, none)

/-- `engine_graph_get_output_bool` (non-null arguments). -/
def engineGraphGetOutputBool (g : Graph) (index : Int) : Int × Option Bool × Option String :=
  if index < 0 ∨ (g.outputs.length : Int) ≤ index then (2, none, none)
  else
    match g.outputs[index.toNat]? with
    | none => (2, none, none)
    | some pin =>
        match getNode g pin.node with
        | none => (3, none, none)
        | some n =>
            if pin.outIdx < 0 ∨ (n.outputValues.length : Int) ≤ pin.outIdx then (4, none, none)
            else
              match n.outputValues[pin.outIdx.toNat]? with
              | some (.boolean v) => (0, some v, none)
              | some _ => (5, none, none)
              | none => (4, none, none)

/-- `engine_graph_get_output_string` (nullptr modelled as `none`). -/
def engineGraphGetOutputString (g : Graph) (index : Int) : Option String :=
  if index < 0 ∨ (g.outputs.length : Int) ≤ index then none
  else
    match g.outputs[index.toNat]? with
    | none => none
    | some pin =>
        match getNode g pin.node with
        | none => none
        | some n =>
            if pin.outIdx < 0 ∨ (n.outputValues.length : Int) ≤ pin.outIdx then none
            else
              match n.outputValues[pin.outIdx.toNat]? with
              | some (.str s) => some s
              | _ => none

/-!  Concrete graphs used to settle the claims.  Each is built exclusively
through the boundary operations, so it is reachable by an API caller. -/

/-- Replay a list of builder calls, keeping the graph of each result. -/
def buildGraph (steps : List (Graph → ApiResult)) : Graph :=
  steps.foldl (fun g f => (f g).g) emptyGraph

/-- Scenario S1 of the spec: `Number(2) + Number(3)` observed at pin 0. -/
def s1Graph : Graph := buildGraph
  [fun g => engineGraphAddNodeWithId g 1 "Number" "",
   fun g => engineGraphAddNodeWithId g 2 "Number" "",
   fun g => engineGraphAddNodeWithId g 3 "AddNumber" "",
   fun g => engineGraphSetParamNumber g 1 "value" 2,
   fun g => engineGraphSetParamNumber g 2 "value" 3,
   fun g => engineGraphConnect g 1 0 3 0,
   fun g => engineGraphConnect g 2 0 3 1,
   fun g => engineGraphAddOutput g 3 0]

/-- Bool(true) → If 2; If 2 else-port → If 3 (skipped); If 2 then-port → If 4
slot 0, then If 3 output 0 → If 4 slot 0 (overwrites the input-map entry).
Node 4 passes its gate (controlled by If 2, then-branch, condition true) but
pulls slot 0 from the skipped node 3. -/
def skipReadGraph : Graph := buildGraph
  [fun g => engineGraphAddNodeWithId g 1 "Bool" "",
   fun g => engineGraphAddNodeWithId g 2 "If" "",
   fun g => engineGraphAddNodeWithId g 3 "If" "",
   fun g => engineGraphAddNodeWithId g 4 "If" "",
   fun g => engineGraphSetParamBool g 1 "value" true,
   fun g => engineGraphConnect g 1 0 2 0,
   fun g => engineGraphConnect g 2 1 3 0,
   fun g => engineGraphConnect g 2 0 4 0,
   fun g => engineGraphConnect g 3 0 4 0]

/-- Bool(false) → If 2; If 2 then-port → If 4 slot 0 (declared first), then
Bool 5 (true) → If 4 slot 0 (overwrites the input-map entry with a
non-conditional source).  Node 4's final input-map entry points at the plain
Bool node 5, yet the code gates node 4 by the control edge from If 2. -/
def overwriteGateGraph : Graph := buildGraph
  [fun g => engineGraphAddNodeWithId g 1 "Bool" "",
   fun g => engineGraphAddNodeWithId g 2 "If" "",
   fun g => engineGraphAddNodeWithId g 5 "Bool" "",
   fun g => engineGraphAddNodeWithId g 4 "If" "",
   fun g => engineGraphSetParamBool g 1 "value" false,
   fun g => engineGraphSetParamBool g 5 "value" true,
   fun g => engineGraphConnect g 1 0 2 0,
   fun g => engineGraphConnect g 2 0 4 0,
   fun g => engineGraphConnect g 5 0 4 0]

/-- An isolated `Concat` node: both String slots stay unbound. -/
def isolatedConcatGraph : Graph := buildGraph
  [fun g => engineGraphAddNodeWithId g 1 "Concat" ""]

/-- Scenario S3 of the spec: `Number` 1 and `Concat` 2, after the failed
`connect(1,0,2,0)` (Number output into String input). -/
def s3Graph : Graph := buildGraph
  [fun g => engineGraphAddNodeWithId g 1 "Number" "",
   fun g => engineGraphAddNodeWithId g 2 "Concat" "",
   fun g => engineGraphConnect g 1 0 2 0]

/-- `Number(5)` bound to `AddNumber` slot 0 only; slot 1 has no connect. -/
def truncationGraph : Graph := buildGraph
  [fun g => engineGraphAddNodeWithId g 1 "Number" "",
   fun g => engineGraphAddNodeWithId g 3 "AddNumber" "",
   fun g => engineGraphSetParamNumber g 1 "value" 5,
   fun g => engineGraphConnect g 1 0 3 0]

/-- Scenario S4 of the spec: two `AddNumber` nodes wired into a 2-cycle. -/
def s4Graph : Graph := buildGraph
  [fun g => engineGraphAddNodeWithId g 1 "AddNumber" "",
   fun g => engineGraphAddNodeWithId g 2 "AddNumber" "",
   fun g => engineGraphConnect g 1 0 2 0,
   fun g => engineGraphConnect g 2 0 1 0]

/-- A two-node If chain: Bool(true) → If 2; If 2's else port → If 3, with
pin (3,0).  With the condition true, node 3 sits on the inactive branch and
is Skipped, so pin 0's producer leaves its outputs empty. -/
def ifChainGraph : Graph := buildGraph
  [fun g => engineGraphAddNodeWithId g 1 "Bool" "",
   fun g => engineGraphAddNodeWithId g 2 "If" "",
   fun g => engineGraphAddNodeWithId g 3 "If" "",
   fun g => engineGraphSetParamBool g 1 "value" true,
   fun g => engineGraphConnect g 1 0 2 0,
   fun g => engineGraphConnect g 2 1 3 0,
   fun g => engineGraphAddOutput g 3 0]

/-!  Predicates and auxiliary definitions used by the theorems. -/

/-- The node ids of a graph, in map order. -/
def idsOf (g : Graph) : List Int := g.nodes.map (fun n => n.id)

/-- A committed edge's validity: both endpoints resolve, both port indices
are in range, and the source output tag equals the target input tag. -/
def edgeOkB (g : Graph) (e : Edge) : Bool :=
  match getNode g e.fromNode, getNode g e.toNode with
  | some a, some b =>
      decide (0 ≤ e.fromOut) && decide (e.fromOut < (a.type.outputs.length : Int)) &&
      decide (0 ≤ e.toIn) && decide (e.toIn < (b.type.inputs.length : Int)) &&
      (a.type.outputs[e.fromOut.toNat]? == b.type.inputs[e.toIn.toNat]?)
  | _, _ => false

/-- A node whose type is named `"If"` has the builtin If signature
(one Bool input, two Bool outputs).  Holds for all registry types. -/
def ifShapeB (n : Node) : Bool :=
  !(n.type.name == "If") ||
    (decide (n.type.inputs = [Ty.bool]) && decide (n.type.outputs = [Ty.bool, Ty.bool]))

/-- Well-formedness of a graph: distinct node ids, valid committed edges,
and If-named node types of the builtin shape.  Established for the empty
graph and preserved by every boundary operation. -/
def WF (g : Graph) : Prop :=
  (idsOf g).Nodup ∧ (∀ e ∈ g.edges, edgeOkB g e = true) ∧ (∀ n ∈ g.nodes, ifShapeB n = true)

instance (g : Graph) : Decidable (WF g) := by
  unfold WF; infer_instance

/-- One step along a data edge. -/
def EdgeStep (edges : List Edge) (u v : Int) : Prop :=
  ∃ e ∈ edges, e.fromNode = u ∧ e.toNode = v

/-- The edge set contains a (nonempty) directed cycle. -/
def HasCycle (edges : List Edge) : Prop :=
  ∃ v, Relation.TransGen (EdgeStep edges) v v

/-- The number of edges into `v` whose source lies in `P` (the decrements
applied to `indeg[v]` once the nodes of `P` have been processed). -/
def decCnt (edges : List Edge) (P : List Int) (v : Int) : Nat :=
  (edges.filter (fun e => e.toNode == v && decide (e.fromNode ∈ P))).length

/-- The loop invariant of the Kahn drain: the queue `q` is duplicate-free
and inside `ids`, position `i` has not overrun it, every counter equals the
initial indegree minus the processed-source decrements, a node of `ids` sits
in the queue exactly when its counter has dropped to zero, and every queued
node's in-edges come from strictly earlier queue positions. -/
structure KInv (ids : List Int) (edges : List Edge) (i : Nat) (indeg : Int → Int)
    (q : List Int) : Prop where
  nodup : q.Nodup
  sub : ∀ v ∈ q, v ∈ ids
  ile : i ≤ q.length
  formula : ∀ v, indeg v = inCount edges v - (decCnt edges (q.take i) v : Int)
  memq : ∀ v ∈ ids, (v ∈ q ↔ indeg v ≤ 0)
  topo : ∀ (k : Nat) (hk : k < q.length), ∀ e ∈ edges, e.toNode = q[k] →
    ∃ (j : Nat) (hj : j < q.length), j < k ∧ q[j] = e.fromNode

/-- A pull of input slot `p = (src, sout)` succeeds: either the slot is the
unbound sentinel, or the source exists and produced output index `sout`. -/
def slotReadOkB (g : Graph) (p : Int × Int) : Bool :=
  decide (p.1 < 0) ||
    match getNode g p.1 with
    | some up => !decide (p.2 < 0) && decide (p.2 < (up.outputValues.length : Int))
    | none => false

/-- Success/error-message discipline of one boundary call: code 0 with no
message write, or a non-zero code with a message written. -/
def opOk (r : ApiResult) : Prop :=
  (r.code = 0 ∧ r.msg = none) ∨ (r.code ≠ 0 ∧ r.msg.isSome = true)

/-- The `get_output_*` situation the spec calls NotComputed: a valid pin
index whose producer exists but did not populate the pin's output index
(in particular a Skipped or failed producer). -/
def notComputedCaseB (g : Graph) (idx : Int) : Bool :=
  !decide (idx < 0) && decide (idx < (g.outputs.length : Int)) &&
    match g.outputs[idx.toNat]? with
    | some pin =>
        match getNode g pin.node with
        | some n => decide (pin.outIdx < 0) || decide ((n.outputValues.length : Int) ≤ pin.outIdx)
        | none => false
    | none => false

/-- Entry `i` of the input map of target `to` (sentinel entries included). -/
def slotAt (m : List (Int × List (Int × Int))) (toId : Int) (i : Nat) : Option (Int × Int) :=
  match m.find? (fun kv => kv.1 == toId) with
  | some kv => kv.2[i]?
  | none => none

/-- The length that the slot vector of a target reaches: one past the
largest connected input index. -/
def maxSlots (es : List Edge) : Nat :=
  es.foldl (fun a e => max a (e.toIn.toNat + 1)) 0

/-- Modelled from the spec's words (§4.D item 3), as the refinement target
for the input map: the authoritative source of slot `i` of node `to` is the
last declared connect for that pair; declared-but-unwritten slots below the
highest connected index hold the sentinel (-1,-1); a target with no incoming
edge has no entry at all. -/
def slotSpec (edges : List Edge) (toId : Int) (i : Nat) : Option (Int × Int) :=
  let tgt := edges.filter (fun e => e.toNode == toId)
  if tgt.isEmpty then none
  else if i < maxSlots tgt then
    match (tgt.filter (fun e => e.toIn.toNat == i)).getLast? with
    | some e => some (e.fromNode, e.fromOut)
    | none => some (-1, -1)
  else none

/-!  A small JSON syntax tree, used as the refinement target for the
signature serialization: `describe_type` must produce exactly the rendering
of the schema-shaped tree of the node type. -/

/-- JSON values as far as the signature schema needs them. -/
inductive Json where
  | jstr : String → Json
  | jnum : Int → Json
  | jbool : Bool → Json
  | jarr : List Json → Json
  | jobj : List (String × Json) → Json

mutual

/-- Render a JSON tree; strings go through `escapeJson`, numbers through the
`std::to_string` rendering. -/
def Json.render : Json → String
  | .jstr s => "\"" ++ escapeJson s ++ "\""
  | .jnum v => cppToString6 v
  | .jbool b => if b then "true" else "false"
  | .jarr xs => "[" ++ Json.renderArr xs ++ "]"
  | .jobj fs => "\x7b" ++ Json.renderFields fs ++ "\x7d"

/-- Comma-separated rendering of array elements. -/
def Json.renderArr : List Json → String
  | [] => ""
  | [x] => Json.render x
  | x :: y :: xs => Json.render x ++ "," ++ Json.renderArr (y :: xs)

/-- Comma-separated rendering of object fields. -/
def Json.renderFields : List (String × Json) → String
  | [] => ""
  | [kv] => "\"" ++ escapeJson kv.1 ++ "\":" ++ Json.render kv.2
  | kv :: kv2 :: fs =>
      "\"" ++ escapeJson kv.1 ++ "\":" ++ Json.render kv.2 ++ "," ++
        Json.renderFields (kv2 :: fs)

end

/-- A `Value` as a JSON leaf. -/
def jsonOfValue : Value → Json
  | .num v => .jnum v
  | .str s => .jstr s
  | .boolean b => .jbool b

/-- The schema of one parameter object: name, type, default, description,
and `enum` exactly when the option list is non-empty. -/
def specParamJson (p : ParamSpec) : Json :=
  .jobj ([("name", .jstr p.name), ("type", .jstr (typeToString p.type)),
          ("default", jsonOfValue p.defaultValue),
          ("description", .jstr p.description)] ++
         (if p.enumOptions.isEmpty then []
          else [("enum", .jarr (p.enumOptions.map Json.jstr))]))

/-- The schema of a serialized signature: name, version, description,
inputs, outputs, params, in that order. -/
def specSig (nt : NodeType) : Json :=
  .jobj [("name", .jstr nt.name), ("version", .jstr nt.version),
         ("description", .jstr nt.description),
         ("inputs", .jarr (nt.inputs.map (fun t => .jstr (typeToString t)))),
         ("outputs", .jarr (nt.outputs.map (fun t => .jstr (typeToString t)))),
         ("params", .jarr (nt.params.map specParamJson))]

/-- The fields of a graph untouched by the executor tasks. -/
def graphShape (g : Graph) : List Edge × List OutputPin × List ControlEdge :=
  (g.edges, g.outputs, g.controlEdges)

/-- The id and type signature of every node, untouched by the executor. -/
def nodesShape (g : Graph) : List (Int × String × List Ty × List Ty) :=
  g.nodes.map (fun n => (n.id, n.type.name, n.type.inputs, n.type.outputs))

/-- Digits to a natural number (none on a non-digit). -/
def parseDigits (cs : List Char) (acc : Nat) : Option Nat :=
  match cs with
  | [] => some acc
  | c :: rest => if c.isDigit then parseDigits rest (acc * 10 + (c.toNat - 48)) else none

/-- The value denoted by a plain decimal literal, as a scaled integer:
`some (n, k)` means the literal denotes `n / 10^k`.  Used to state what a
round-trip decimal rendering of a double denotes; `(n1, k1)` and `(n2, k2)`
denote the same value iff `n1 * 10^k2 = n2 * 10^k1`. -/
def decimalScaled (s : String) : Option (Int × Nat) :=
  let cs := s.data
  let sgnBody : Int × List Char :=
    match cs with
    | c :: rest => if c = Char.ofNat 45 then (-1, rest) else (1, cs)
    | [] => (1, [])
  let sgn := sgnBody.1
  let body := sgnBody.2
  let ip := body.takeWhile Char.isDigit
  let rest := body.dropWhile Char.isDigit
  if ip.isEmpty then none
  else
    match rest with
    | [] => (parseDigits ip 0).map (fun n => (sgn * (n : Int), 0))
    | c :: fp =>
        if c = Char.ofNat 46 ∧ ¬ fp.isEmpty ∧ fp.all Char.isDigit then
          (parseDigits (ip ++ fp) 0).map (fun n => (sgn * (n : Int), fp.length))
        else none

/-- A placeholder node, used only as the default of an `Option.getD` whose
option is in fact always `some`. -/
def fallbackNode : Node :=
  { id := 0, type := ifType, name := "", params := [], inputValues := [], outputValues := [] }

/-- The executor state of `skipReadGraph` after its first three tasks
(Bool 1, If 2, If 3 — the last Skipped), i.e. just before node 4's task
pulls its input from the Skipped node 3. -/
def skipReadMidState : Graph :=
  (List.foldl
    (fun s id => execNode (buildInputs skipReadGraph.edges)
      (buildControlEdges (runSetup skipReadGraph) skipReadGraph.edges) s id)
    ({ runSetup skipReadGraph with
        controlEdges := buildControlEdges (runSetup skipReadGraph) skipReadGraph.edges },
      false)
    [1, 2, 3]).1

/-- Node 4 of the mid-run state. -/
def skipReadNode4 : Node := (getNode skipReadMidState 4).getD fallbackNode

/-- The executor state of `ifChainGraph` after tasks 1 and 2. -/
def ifChainMidState : Graph :=
  (List.foldl
    (fun s id => execNode (buildInputs ifChainGraph.edges)
      (buildControlEdges (runSetup ifChainGraph) ifChainGraph.edges) s id)
    ({ runSetup ifChainGraph with
        controlEdges := buildControlEdges (runSetup ifChainGraph) ifChainGraph.edges },
      false)
    [1, 2]).1

/-- Node 3 of the If-chain mid-run state. -/
def ifChainNode3 : Node := (getNode ifChainMidState 3).getD fallbackNode

/-!  ## Helper lemmas -/

set_option maxRecDepth 100000

theorem foldlPreserve {α β : Type _} (f : β → α → β) (P : β → Prop)
    (h : ∀ b a, P b → P (f b a)) : ∀ (l : List α) (b : β), P b → P (l.foldl f b) := by
  intro l
  induction l with
  | nil => intro b hb; exact hb
  | cons a l ih => intro b hb; exact ih _ (h b a hb)

theorem findMapPred {α : Type _} (l : List α) (h : α → α) (p : α → Bool)
    (hp : ∀ a, p (h a) = p a) : (l.map h).find? p = (l.find? p).map h := by
  rw [List.find?_map]
  have hfun : (p ∘ h) = p := funext hp
  rw [hfun]

theorem setState_graphShape (g : Graph) (id : Int) (st : ExecState) :
    graphShape (setState g id st) = graphShape g := rfl

theorem updateNode_graphShape (g : Graph) (id : Int) (f : Node → Node) :
    graphShape (updateNode g id f) = graphShape g := rfl

theorem execNodeActive_graphShape (m : List (Int × List (Int × Int))) (g : Graph)
    (id : Int) (n : Node) : graphShape (execNodeActive m g id n).1 = graphShape g := by
  unfold execNodeActive
  cases h1 : m.find? (fun kv => kv.1 == id) with
  | none =>
      cases h2 : n.type.compute n.inputValues n.params <;>
        simp [h1, h2, setState, updateNode, graphShape]
  | some kv =>
      obtain ⟨k, slots⟩ := kv
      rcases hp : pullLoop (setState g id .active) slots 0
          (resizeValues n.inputValues slots.length) with ⟨vals, ok⟩
      cases ok with
      | false =>
          simp only [h1]
          rw [hp]
          simp [setState, updateNode, graphShape]
      | true =>
          simp only [h1]
          rw [hp]
          cases h2 : n.type.compute vals n.params <;>
            simp [h2, setState, updateNode, graphShape]

theorem execNode_graphShape (m : List (Int × List (Int × Int))) (ctrls : List ControlEdge)
    (s : Graph × Bool) (id : Int) : graphShape (execNode m ctrls s id).1 = graphShape s.1 := by
  rcases s with ⟨g, failed⟩
  cases failed with
  | true => simp [execNode, graphShape]
  | false =>
      cases hn : getNode g id with
      | none => simp [execNode, hn]
      | some n =>
          cases hc : ctrls.find? (fun c => c.toNode == id) with
          | none => simpa [execNode, hn, hc] using execNodeActive_graphShape m g id n
          | some c =>
              by_cases hneg : c.fromNode = -1
              · simpa [execNode, hn, hc, hneg] using execNodeActive_graphShape m g id n
              · cases hif : getNode g c.fromNode with
                | none => simp [execNode, hn, hc, hneg, hif, setState, graphShape]
                | some ifn =>
                    cases hh : ifn.outputValues.head? with
                    | none => simp [execNode, hn, hc, hneg, hif, hh, setState, graphShape]
                    | some v =>
                        cases v with
                        | num a => simp [execNode, hn, hc, hneg, hif, hh, graphShape]
                        | str a => simp [execNode, hn, hc, hneg, hif, hh, graphShape]
                        | boolean b =>
                            by_cases hcond : c.condition == b
                            · simpa [execNode, hn, hc, hneg, hif, hh, hcond] using
                                execNodeActive_graphShape m g id n
                            · simp [execNode, hn, hc, hneg, hif, hh, hcond, setState,
                                graphShape]

theorem runTaskflow_graphShape (g0 : Graph) :
    graphShape (runGraphTaskflow g0).1 =
      (g0.edges, g0.outputs, buildControlEdges (runSetup g0) g0.edges) := by
  unfold runGraphTaskflow
  dsimp only []
  split
  · rfl
  · have hmatch : ∀ (X : Graph × Bool),
        (match X with | (gF, failed) => (gF, !failed)).1 = X.1 := fun X => rfl
    rw [hmatch]
    refine foldlPreserve _
      (fun (s : Graph × Bool) => graphShape s.1 =
        (g0.edges, g0.outputs, buildControlEdges (runSetup g0) g0.edges))
      (fun s id hs => (execNode_graphShape _ _ s id).trans hs) _ _ ?_
    rfl

/-!  ## C3 -/

/-- C3: the If node's compute, given a Bool input `b`, produces output 0
equal to `b` and output 1 equal to its negation; and the control edges are
re-derived at each run — independently of whatever the graph's previous
control-edge list was — containing exactly one record per data edge whose
source node is of the conditional type, with `condition = (portIndex == 0)`. -/
theorem c3_if_compute_and_control_derivation :
    (∀ (ps : List (String × Value)) (b : Bool),
        ifCompute [.boolean b] ps = .ok [.boolean b, .boolean (!b)]) ∧
    (∀ (g : Graph) (ces0 : List ControlEdge),
        (runGraphTaskflow { g with controlEdges := ces0 }).1.controlEdges =
          buildControlEdges (runSetup g) g.edges) ∧
    (∀ (g : Graph) (es : List Edge) (ce : ControlEdge),
        ce ∈ buildControlEdges g es ↔
          ∃ e ∈ es, ifSrcB g e = true ∧
            ce = { fromNode := e.fromNode, fromOut := e.fromOut, toNode := e.toNode,
                   condition := e.fromOut == (0 : Int) }) := by
  refine ⟨fun ps b => rfl, fun g ces0 => ?_, fun g es ce => ?_⟩
  · have h := runTaskflow_graphShape { g with controlEdges := ces0 }
    have h2 : graphShape (runGraphTaskflow { g with controlEdges := ces0 }).1 =
        ({ g with controlEdges := ces0 }.edges, { g with controlEdges := ces0 }.outputs,
          buildControlEdges (runSetup g) g.edges) := h
    exact congrArg (fun p => p.2.2) h2
  · constructor
    · intro h
      rcases List.mem_filterMap.mp h with ⟨e, he, hfe⟩
      by_cases hs : ifSrcB g e = true
      · refine ⟨e, he, hs, ?_⟩
        rw [if_pos hs] at hfe
        exact (Option.some_inj.mp hfe).symm
      · rw [if_neg hs] at hfe
        cases hfe
    · rintro ⟨e, he, hs, rfl⟩
      exact List.mem_filterMap.mpr ⟨e, he, by rw [if_pos hs]⟩

/-!  ## C4 -/

/-- C4 counterexample: the claim says each input slot is seeded with the
type-tag-appropriate zero (string slots with "") so that an isolated node
still computes.  An isolated `Concat` node refutes both: its two String
slots are seeded with `Value::num(0.0)` rather than empty strings, and its
run fails in `Concat`'s compute. -/
theorem c4_counterexample :
    (getNode isolatedConcatGraph 1).map (fun n => n.inputValues) =
      some [Value.num 0, Value.num 0] ∧
    (getNode isolatedConcatGraph 1).map (fun n => n.type.inputs) =
      some [Ty.string, Ty.string] ∧
    [Value.num 0, Value.num 0] ≠ [Value.str "", Value.str ""] ∧
    (engineGraphRun isolatedConcatGraph).code = 2 ∧
    (engineGraphRun isolatedConcatGraph).msg =
      some "Concat compute failed: Concat: invalid inputs" := by
  refine ⟨by decide, by decide, by decide, by decide, by decide⟩

/-- C4 amended: `add_node` sizes the node's `inputValues` to `|type.inputs|`
but seeds every slot with `Value::num(0.0)` regardless of the slot's
declared tag, and the per-run setup re-seeds every node the same way (and
clears `outputValues`); an isolated node therefore computes successfully
only when its compute accepts all-Number inputs. -/
theorem c4_number_zero_seeding :
    (∀ (g : Graph) (nodeId : Int) (tyName nm : String),
        (engineGraphAddNodeWithId g nodeId tyName nm).code = 0 →
        (getNode (engineGraphAddNodeWithId g nodeId tyName nm).g nodeId).map
            (fun n => (n.inputValues, n.outputValues)) =
          (getNode (engineGraphAddNodeWithId g nodeId tyName nm).g nodeId).map
            (fun n => (n.type.inputs.map (fun _ => Value.num 0), ([] : List Value)))) ∧
    (∀ (g : Graph) (x : Int),
        (getNode (runSetup g) x).map (fun n => (n.inputValues, n.outputValues)) =
          (getNode (runSetup g) x).map
            (fun n => (n.type.inputs.map (fun _ => Value.num 0), ([] : List Value)))) := by
  constructor
  · intro g nodeId tyName nm hcode
    unfold engineGraphAddNodeWithId at hcode ⊢
    by_cases hdup : g.nodes.any (fun n => n.id == nodeId) = true
    · rw [if_pos hdup] at hcode; simp at hcode
    · rw [if_neg hdup] at hcode ⊢
      cases hreg : registryFind tyName with
      | none => rw [hreg] at hcode; simp at hcode
      | some ty =>
          have hnone : g.nodes.find? (fun n => n.id == nodeId) = none := by
            rw [List.find?_eq_none]
            intro x hx hpx
            exact hdup (List.any_eq_true.mpr ⟨x, hx, hpx⟩)
          dsimp only []
          unfold getNode
          rw [List.find?_append, hnone]
          simp
  · intro g x
    unfold runSetup getNode
    dsimp only []
    rw [findMapPred g.nodes
      (fun n => { n with inputValues := n.type.inputs.map (fun _ => Value.num 0),
                         outputValues := [] })
      (fun n => n.id == x) (fun n => rfl)]
    cases g.nodes.find? (fun n => n.id == x) with
    | none => rfl
    | some n => rfl

/-- C4 amended, witness: adding an isolated `Concat` node to the empty graph
succeeds, and its seeded values are as the amended claim states. -/
theorem c4_number_zero_seeding_witness :
    (engineGraphAddNodeWithId emptyGraph 1 "Concat" "").code = 0 ∧
    (getNode (engineGraphAddNodeWithId emptyGraph 1 "Concat" "").g 1).map
        (fun n => (n.inputValues, n.outputValues)) =
      (getNode (engineGraphAddNodeWithId emptyGraph 1 "Concat" "").g 1).map
        (fun n => (n.type.inputs.map (fun _ => Value.num 0), ([] : List Value))) :=
  ⟨by decide, c4_number_zero_seeding.1 emptyGraph 1 "Concat" "" (by decide)⟩

/-!  ## C9 -/

/-- C9 counterexample: number defaults are not rendered as shortest
round-trip decimals.  The `Number` type's `value` default 0.0 serializes as
`0.000000` (std::to_string, fixed six decimals), while the one-character
literal `0` denotes the same value (`decimalScaled` agrees:
`0 / 10^6 = 0 / 10^0`), so a strictly shorter round-tripping decimal
exists. -/
theorem c9_counterexample :
    valueToJson (Value.num 0) = "0.000000" ∧
    List.IsInfix "\"default\":0.000000".data (nodeTypeToJson numberType).data ∧
    decimalScaled "0.000000" = some (0, 6) ∧
    decimalScaled "0" = some (0, 0) ∧
    (0 : Int) * 10 ^ 0 = 0 * 10 ^ 6 ∧
    "0".length < "0.000000".length := by
  refine ⟨by decide, by decide, by decide, by decide, by decide, by decide⟩

/-- C9 amended: for every registered node type the serialized signature is
exactly the rendering of the schema-shaped JSON tree — an object with
fields name, version, description, inputs, outputs, params in that order,
each param carrying name, type, default, description, and enum exactly when
its option list is non-empty, strings escaped for the seven JSON escapes —
but number defaults are rendered by `std::to_string` (fixed six decimals),
not as shortest round-trip decimals. -/
theorem c9_signature_schema :
    (∀ kv ∈ registry, nodeTypeToJson kv.2 = Json.render (specSig kv.2) ∧
        engineGetTypeSpec kv.1 = some (nodeTypeToJson kv.2)) ∧
    (∀ v : Int, valueToJson (Value.num v) = cppToString6 v) ∧
    (∀ s : String, escapeJson s = String.join (s.data.map escapeChar)) :=
  ⟨by decide, fun v => rfl, fun s => rfl⟩

/-- C9 amended, witness at the `Number` registry entry. -/
theorem c9_signature_schema_witness :
    nodeTypeToJson numberType = Json.render (specSig numberType) ∧
    engineGetTypeSpec "Number" = some (nodeTypeToJson numberType) :=
  c9_signature_schema.1 ("Number", numberType)
    (show ("Number", numberType) ∈ registry from List.mem_cons_self _ _)

/-!  ## C8 -/

/-- C8 counterexample: `engine_graph_get_output_number` returns the
non-zero code 2 (index out of range) and 4 (output missing on the pin's
producer, here a Skipped If) without writing the thread-local error message
(`msg` component `none`), refuting "every public boundary operation that
returns an error code sets the last-error message before returning
non-zero". -/
theorem c8_counterexample :
    engineGraphGetOutputNumber emptyGraph 0 = (2, none, none) ∧
    (engineGraphRun ifChainGraph).code = 0 ∧
    stateOf (engineGraphRun ifChainGraph).g 3 = .skipped ∧
    engineGraphGetOutputNumber (engineGraphRun ifChainGraph).g 0 = (4, none, none) := by
  refine ⟨by decide, by decide, by decide, by decide⟩

/-- C8 amended: the construction and run operations set the thread-local
message exactly when they return non-zero (success writes nothing, so the
previous message is preserved); the `get_output_number`/`bool` getters never
write the message and signal their failures only through the bare return
codes, with IndexOutOfRange (2) and the NotComputed situation (4)
distinguishable from each other and from success (0). -/
theorem c8_opOk_err (g : Graph) (c : Int) (m : String) (h : c ≠ 0) :
    opOk { g := g, code := c, msg := some m } :=
  Or.inr ⟨h, rfl⟩

theorem c8_opOk_success (g : Graph) : opOk { g := g, code := 0, msg := none } :=
  Or.inl ⟨rfl, rfl⟩

theorem c8_error_message_discipline :
    (∀ g nodeId tyName nm, opOk (engineGraphAddNodeWithId g nodeId tyName nm)) ∧
    (∀ g nodeId key v, opOk (engineGraphSetParamNumber g nodeId key v)) ∧
    (∀ g nodeId key v, opOk (engineGraphSetParamString g nodeId key v)) ∧
    (∀ g nodeId key v, opOk (engineGraphSetParamBool g nodeId key v)) ∧
    (∀ g a b c d, opOk (engineGraphConnect g a b c d)) ∧
    (∀ g nodeId outIndex, opOk (engineGraphAddOutput g nodeId outIndex)) ∧
    (∀ g, opOk (engineGraphRun g)) ∧
    (∀ g idx, (engineGraphGetOutputNumber g idx).2.2 = none) ∧
    (∀ g idx, (engineGraphGetOutputBool g idx).2.2 = none) ∧
    (∀ g idx, (idx < 0 ∨ (g.outputs.length : Int) ≤ idx) →
        (engineGraphGetOutputNumber g idx).1 = 2 ∧
        (engineGraphGetOutputBool g idx).1 = 2) ∧
    (∀ g idx, notComputedCaseB g idx = true →
        (engineGraphGetOutputNumber g idx).1 = 4 ∧
        (engineGraphGetOutputBool g idx).1 = 4) := by
  refine ⟨?_, ?_, ?_, ?_, ?_, ?_, ?_, ?_, ?_, ?_, ?_⟩
  · intro g nodeId tyName nm
    unfold engineGraphAddNodeWithId
    by_cases hdup : g.nodes.any (fun n => n.id == nodeId) = true
    · rw [if_pos hdup]; exact c8_opOk_err _ _ _ (by decide)
    · rw [if_neg hdup]
      cases registryFind tyName with
      | none => exact c8_opOk_err _ _ _ (by decide)
      | some ty => exact c8_opOk_success _
  · intro g nodeId key v
    unfold engineGraphSetParamNumber
    cases getNode g nodeId with
    | none => exact c8_opOk_err _ _ _ (by decide)
    | some n => exact c8_opOk_success _
  · intro g nodeId key v
    unfold engineGraphSetParamString
    cases getNode g nodeId with
    | none => exact c8_opOk_err _ _ _ (by decide)
    | some n => exact c8_opOk_success _
  · intro g nodeId key v
    unfold engineGraphSetParamBool
    cases getNode g nodeId with
    | none => exact c8_opOk_err _ _ _ (by decide)
    | some n => exact c8_opOk_success _
  · intro g a b c d
    unfold engineGraphConnect
    cases getNode g a with
    | none =>
        cases getNode g c with
        | none => exact c8_opOk_err _ _ _ (by decide)
        | some nB => exact c8_opOk_err _ _ _ (by decide)
    | some nA =>
        cases getNode g c with
        | none => exact c8_opOk_err _ _ _ (by decide)
        | some nB =>
            repeat' split
            all_goals first
              | exact c8_opOk_success _
              | exact c8_opOk_err _ _ _ (by decide)
  · intro g nodeId outIndex
    unfold engineGraphAddOutput
    cases getNode g nodeId with
    | none => exact c8_opOk_err _ _ _ (by decide)
    | some n =>
        repeat' split
        all_goals first
          | exact c8_opOk_success _
          | exact c8_opOk_err _ _ _ (by decide)
  · intro g
    unfold engineGraphRun
    rcases hr : runGraphTaskflow g with ⟨g2, ok⟩
    cases ok with
    | true => exact c8_opOk_success _
    | false => exact c8_opOk_err _ _ _ (by decide)
  · intro g idx
    unfold engineGraphGetOutputNumber
    repeat' split
    all_goals rfl
  · intro g idx
    unfold engineGraphGetOutputBool
    repeat' split
    all_goals rfl
  · intro g idx h
    unfold engineGraphGetOutputNumber engineGraphGetOutputBool
    rw [if_pos h, if_pos h]
    exact ⟨rfl, rfl⟩
  · intro g idx h
    unfold notComputedCaseB at h
    simp only [Bool.and_eq_true, Bool.not_eq_true', decide_eq_true_eq,
      decide_eq_false_iff_not] at h
    obtain ⟨⟨h1, h2⟩, h3⟩ := h
    have hrange : ¬ (idx < 0 ∨ (g.outputs.length : Int) ≤ idx) := by
      push_neg
      exact ⟨by omega, by omega⟩
    unfold engineGraphGetOutputNumber engineGraphGetOutputBool
    rw [if_neg hrange, if_neg hrange]
    cases hp : g.outputs[idx.toNat]? with
    | none => rw [hp] at h3; simp at h3
    | some pin =>
        rw [hp] at h3
        dsimp only [] at h3 ⊢
        cases hn : getNode g pin.node with
        | none => rw [hn] at h3; simp at h3
        | some n =>
            rw [hn] at h3
            dsimp only [] at h3 ⊢
            simp only [Bool.or_eq_true, decide_eq_true_eq] at h3
            have hcond : pin.outIdx < 0 ∨ (n.outputValues.length : Int) ≤ pin.outIdx := h3
            rw [if_pos hcond, if_pos hcond]
            exact ⟨rfl, rfl⟩

/-- C8 amended, witness: the out-of-range getter code at the empty graph and
the NotComputed getter code at the run ifChainGraph, with both hypotheses
discharged concretely. -/
theorem c8_error_message_discipline_witness :
    (((0 : Int) < 0 ∨ ((emptyGraph.outputs.length : Int) ≤ 0)) ∧
      (engineGraphGetOutputNumber emptyGraph 0).1 = 2 ∧
      (engineGraphGetOutputBool emptyGraph 0).1 = 2) ∧
    (notComputedCaseB (engineGraphRun ifChainGraph).g 0 = true ∧
      (engineGraphGetOutputNumber (engineGraphRun ifChainGraph).g 0).1 = 4 ∧
      (engineGraphGetOutputBool (engineGraphRun ifChainGraph).g 0).1 = 4) :=
  ⟨⟨by decide,
    c8_error_message_discipline.2.2.2.2.2.2.2.2.2.1 emptyGraph 0 (by decide)⟩,
   ⟨by decide,
    c8_error_message_discipline.2.2.2.2.2.2.2.2.2.2 (engineGraphRun ifChainGraph).g 0
      (by decide)⟩⟩

/-!  ## C6 and C10: the edge typing invariant -/

theorem getNode_some (g : Graph) (x : Int) (n : Node) (h : getNode g x = some n) :
    n ∈ g.nodes ∧ n.id = x :=
  ⟨List.mem_of_find?_eq_some h, by simpa using List.find?_some h⟩

theorem registryFind_shape (tyName : String) (ty : NodeType)
    (h : registryFind tyName = some ty) :
    ty.name = "If" → ty.inputs = [Ty.bool] ∧ ty.outputs = [Ty.bool, Ty.bool] := by
  unfold registryFind at h
  rcases hf : registry.find? (fun kv => kv.1 == tyName) with _ | kv
  · rw [hf] at h; cases h
  · rw [hf] at h
    have hkv : kv.2 = ty := by simpa using h
    subst hkv
    have hmem := List.mem_of_find?_eq_some hf
    fin_cases hmem <;> intro hname
    all_goals first
      | exact ⟨rfl, rfl⟩
      | exact absurd hname (by decide)

theorem edgeOkB_append (g : Graph) (nn : Node) (e : Edge) (h : edgeOkB g e = true) :
    edgeOkB { g with nodes := g.nodes ++ [nn] } e = true := by
  unfold edgeOkB getNode at h ⊢
  dsimp only [] at h ⊢
  rw [List.find?_append, List.find?_append]
  cases hA : List.find? (fun m => m.id == e.fromNode) g.nodes with
  | none => rw [hA] at h; simp at h
  | some a =>
      rw [hA] at h
      cases hB : List.find? (fun m => m.id == e.toNode) g.nodes with
      | none => rw [hB] at h; simp at h
      | some b =>
          rw [hB] at h
          simpa [Option.or] using h

theorem edgeOkB_nodes_map (g : Graph) (hfun : Node → Node)
    (hid : ∀ n, (hfun n).id = n.id) (hty : ∀ n, (hfun n).type = n.type) (e : Edge)
    (h : edgeOkB g e = true) :
    edgeOkB { g with nodes := g.nodes.map hfun } e = true := by
  unfold edgeOkB getNode at h ⊢
  dsimp only [] at h ⊢
  rw [findMapPred g.nodes hfun (fun m => m.id == e.fromNode) (fun n => by simp only [hid])]
  rw [findMapPred g.nodes hfun (fun m => m.id == e.toNode) (fun n => by simp only [hid])]
  cases hA : List.find? (fun m => m.id == e.fromNode) g.nodes with
  | none => rw [hA] at h; simp at h
  | some a =>
      rw [hA] at h
      cases hB : List.find? (fun m => m.id == e.toNode) g.nodes with
      | none => rw [hB] at h; simp at h
      | some b =>
          rw [hB] at h
          simpa [hty] using h

theorem wf_updateNode (g : Graph) (id0 : Int) (f : Node → Node)
    (hid : ∀ n, (f n).id = n.id) (hty : ∀ n, (f n).type = n.type)
    (hwf : WF g) : WF (updateNode g id0 f) := by
  obtain ⟨hnd, hedge, hshape⟩ := hwf
  have hfun_id : ∀ n : Node, (if n.id == id0 then f n else n).id = n.id := by
    intro n; split
    · exact hid n
    · rfl
  have hfun_ty : ∀ n : Node, (if n.id == id0 then f n else n).type = n.type := by
    intro n; split
    · exact hty n
    · rfl
  refine ⟨?_, ?_, ?_⟩
  · unfold idsOf at hnd
    unfold idsOf updateNode
    dsimp only []
    rw [List.map_map]
    have : ((fun n : Node => n.id) ∘ fun n => if n.id == id0 then f n else n) =
        (fun n : Node => n.id) := funext (fun n => hfun_id n)
    rw [this]
    exact hnd
  · intro e he
    exact edgeOkB_nodes_map g _ hfun_id hfun_ty e (hedge e he)
  · intro m hm
    rcases List.mem_map.mp hm with ⟨m0, hm0, rfl⟩
    unfold ifShapeB
    rw [hfun_ty m0]
    exact hshape m0 hm0

/-- C6 counterexample: in scenario S3 the mismatched connect fails with the
type-mismatch code and leaves the graph unchanged, but the subsequent run
does not succeed: the isolated `Concat` node computes on its Number-seeded
inputs and fails. -/
theorem c6_counterexample :
    (engineGraphConnect s3Graph 1 0 2 0).code = 5 ∧
    (engineGraphConnect s3Graph 1 0 2 0).msg = some "connect: socket type mismatch" ∧
    (engineGraphConnect s3Graph 1 0 2 0).g = s3Graph ∧
    s3Graph.edges = [] ∧
    (engineGraphRun s3Graph).code = 2 ∧
    (engineGraphRun s3Graph).msg = some "Concat compute failed: Concat: invalid inputs" :=
  ⟨by decide, by decide, rfl, by decide, by decide, by decide⟩

/-- C6 amended: every committed data edge is well-typed with in-range ports
(an invariant established on the empty graph and preserved by every builder
operation), a failing connect returns non-zero leaving the graph exactly
unchanged, and a subsequent run operates on the unchanged remainder — in the
S3 instance that run fails inside Concat's compute (because unbound String
slots are seeded with Number zeros), rather than succeeding. -/
theorem c6_edge_typing_invariant :
    WF emptyGraph ∧
    (∀ g nodeId tyName nm, WF g → WF (engineGraphAddNodeWithId g nodeId tyName nm).g) ∧
    (∀ g nodeId key v, WF g → WF (engineGraphSetParamNumber g nodeId key v).g) ∧
    (∀ g nodeId key v, WF g → WF (engineGraphSetParamString g nodeId key v).g) ∧
    (∀ g nodeId key v, WF g → WF (engineGraphSetParamBool g nodeId key v).g) ∧
    (∀ g a b c d, WF g → WF (engineGraphConnect g a b c d).g) ∧
    (∀ g nodeId outIndex, WF g → WF (engineGraphAddOutput g nodeId outIndex).g) ∧
    (∀ g a b c d, (engineGraphConnect g a b c d).code ≠ 0 →
        (engineGraphConnect g a b c d).g = g) ∧
    (∀ g, WF g → ∀ e ∈ g.edges, ∃ a, ∃ b,
        getNode g e.fromNode = some a ∧ getNode g e.toNode = some b ∧
        e.fromOut.toNat < a.type.outputs.length ∧ e.toIn.toNat < b.type.inputs.length ∧
        a.type.outputs[e.fromOut.toNat]? = b.type.inputs[e.toIn.toNat]?) ∧
    ((engineGraphRun s3Graph).code = 2 ∧
     (engineGraphRun s3Graph).msg = some "Concat compute failed: Concat: invalid inputs") := by
  refine ⟨by decide, ?_, ?_, ?_, ?_, ?_, ?_, ?_, ?_, by decide, by decide⟩
  · intro g nodeId tyName nm hwf
    unfold engineGraphAddNodeWithId
    by_cases hdup : g.nodes.any (fun n => n.id == nodeId) = true
    · rw [if_pos hdup]; exact hwf
    · rw [if_neg hdup]
      cases hreg : registryFind tyName with
      | none => exact hwf
      | some ty =>
          obtain ⟨hnd, hedge, hshape⟩ := hwf
          refine ⟨?_, ?_, ?_⟩
          · unfold idsOf at hnd ⊢
            dsimp only []
            rw [List.map_append, List.nodup_append]
            refine ⟨hnd, List.nodup_singleton _, ?_⟩
            intro x hx hx2
            simp only [List.map_cons, List.map_nil, List.mem_singleton] at hx2
            subst hx2
            rcases List.mem_map.mp hx with ⟨m, hm, hmx⟩
            exact absurd (List.any_eq_true.mpr ⟨m, hm, by simp [hmx]⟩) hdup
          · intro e he
            exact edgeOkB_append g _ e (hedge e he)
          · intro m hm
            rcases List.mem_append.mp hm with hm | hm
            · exact hshape m hm
            · rw [List.mem_singleton] at hm
              subst hm
              unfold ifShapeB
              by_cases hname : ty.name = "If"
              · obtain ⟨hi, ho⟩ := registryFind_shape tyName ty hreg hname
                simp [hname, hi, ho]
              · simp [hname]
  · intro g nodeId key v hwf
    unfold engineGraphSetParamNumber
    cases getNode g nodeId with
    | none => exact hwf
    | some n => exact wf_updateNode g nodeId _ (fun n => rfl) (fun n => rfl) hwf
  · intro g nodeId key v hwf
    unfold engineGraphSetParamString
    cases getNode g nodeId with
    | none => exact hwf
    | some n => exact wf_updateNode g nodeId _ (fun n => rfl) (fun n => rfl) hwf
  · intro g nodeId key v hwf
    unfold engineGraphSetParamBool
    cases getNode g nodeId with
    | none => exact hwf
    | some n => exact wf_updateNode g nodeId _ (fun n => rfl) (fun n => rfl) hwf
  · intro g a b c d hwf
    unfold engineGraphConnect
    cases hA : getNode g a with
    | none =>
        cases hB : getNode g c with
        | none => exact hwf
        | some nB => exact hwf
    | some nA =>
        cases hB : getNode g c with
        | none => exact hwf
        | some nB =>
            dsimp only []
            by_cases h1 : b < 0 ∨ (nA.type.outputs.length : Int) ≤ b
            · rw [if_pos h1]; exact hwf
            · rw [if_neg h1]
              by_cases h2 : d < 0 ∨ (nB.type.inputs.length : Int) ≤ d
              · rw [if_pos h2]; exact hwf
              · rw [if_neg h2]
                by_cases h3 : nA.type.outputs[b.toNat]? ≠ nB.type.inputs[d.toNat]?
                · rw [if_pos h3]; exact hwf
                · rw [if_neg h3]
                  obtain ⟨hnd, hedge, hshape⟩ := hwf
                  refine ⟨hnd, ?_, hshape⟩
                  intro e he
                  rcases List.mem_append.mp he with he | he
                  · exact hedge e he
                  · rw [List.mem_singleton] at he
                    subst he
                    have hred : edgeOkB { g with edges := g.edges ++
                        [{ fromNode := a, fromOut := b, toNode := c, toIn := d }] }
                        { fromNode := a, fromOut := b, toNode := c, toIn := d } =
                        edgeOkB g { fromNode := a, fromOut := b, toNode := c, toIn := d } :=
                      rfl
                    rw [hred]
                    unfold edgeOkB
                    dsimp only []
                    rw [hA, hB]
                    push_neg at h1 h2
                    rw [not_not] at h3
                    simp only [Bool.and_eq_true, decide_eq_true_eq, beq_iff_eq]
                    exact ⟨⟨⟨⟨h1.1, h1.2⟩, h2.1⟩, h2.2⟩, h3⟩
  · intro g nodeId outIndex hwf
    unfold engineGraphAddOutput
    cases getNode g nodeId with
    | none => exact hwf
    | some n =>
        dsimp only []
        by_cases h1 : outIndex < 0 ∨ (n.type.outputs.length : Int) ≤ outIndex
        · rw [if_pos h1]; exact hwf
        · rw [if_neg h1]; exact hwf
  · intro g a b c d hcode
    unfold engineGraphConnect at hcode ⊢
    cases hA : getNode g a with
    | none =>
        cases hB : getNode g c with
        | none => rfl
        | some nB => rfl
    | some nA =>
        cases hB : getNode g c with
        | none => rfl
        | some nB =>
            rw [hA, hB] at hcode
            dsimp only [] at hcode ⊢
            by_cases h1 : b < 0 ∨ (nA.type.outputs.length : Int) ≤ b
            · rw [if_pos h1]
            · rw [if_neg h1] at hcode ⊢
              by_cases h2 : d < 0 ∨ (nB.type.inputs.length : Int) ≤ d
              · rw [if_pos h2]
              · rw [if_neg h2] at hcode ⊢
                by_cases h3 : nA.type.outputs[b.toNat]? ≠ nB.type.inputs[d.toNat]?
                · rw [if_pos h3]
                · rw [if_neg h3] at hcode
                  exact absurd rfl hcode
  · intro g hwf e he
    obtain ⟨hnd, hedge, hshape⟩ := hwf
    have h := hedge e he
    unfold edgeOkB at h
    cases hA : getNode g e.fromNode with
    | none => rw [hA] at h; simp at h
    | some a =>
        rw [hA] at h
        cases hB : getNode g e.toNode with
        | none => rw [hB] at h; simp at h
        | some b =>
            rw [hB] at h
            simp only [Bool.and_eq_true, decide_eq_true_eq, beq_iff_eq] at h
            obtain ⟨⟨⟨⟨h1, h2⟩, h3⟩, h4⟩, h5⟩ := h
            exact ⟨a, b, rfl, rfl, by omega, by omega, h5⟩

/-- C6 amended, witness: adding a node to the empty graph preserves the
invariant. -/
theorem c6_edge_typing_invariant_witness :
    WF (engineGraphAddNodeWithId emptyGraph 1 "Number" "").g :=
  c6_edge_typing_invariant.2.1 emptyGraph 1 "Number" "" (by decide)

/-- C10: connect enforces tag equality and both If outputs are Bool, so the
target slot of every committed data edge whose source node is of type `If`
carries the Bool tag; consequently every derived control edge targets a node
possessing a Bool-typed input slot (the only nodes that can be directly
gated). -/
theorem c10_control_targets_bool_input :
    ∀ g, WF g →
      (∀ e ∈ g.edges, ∀ a, getNode g e.fromNode = some a → a.type.name = "If" →
        ∃ b, getNode g e.toNode = some b ∧
          b.type.inputs[e.toIn.toNat]? = some Ty.bool) ∧
      (∀ ce ∈ buildControlEdges g g.edges,
        ∃ b, getNode g ce.toNode = some b ∧ Ty.bool ∈ b.type.inputs) := by
  intro g hwf
  obtain ⟨hnd, hedge, hshape⟩ := hwf
  have hmain : ∀ e ∈ g.edges, ∀ a, getNode g e.fromNode = some a → a.type.name = "If" →
      ∃ b, getNode g e.toNode = some b ∧ b.type.inputs[e.toIn.toNat]? = some Ty.bool := by
    intro e he a hA hname
    have h := hedge e he
    unfold edgeOkB at h
    rw [hA] at h
    cases hB : getNode g e.toNode with
    | none => rw [hB] at h; simp at h
    | some b =>
        rw [hB] at h
        simp only [Bool.and_eq_true, decide_eq_true_eq, beq_iff_eq] at h
        obtain ⟨⟨⟨⟨h1, h2⟩, h3⟩, h4⟩, h5⟩ := h
        have hsha := hshape a (getNode_some g e.fromNode a hA).1
        unfold ifShapeB at hsha
        simp only [hname, beq_self_eq_true, Bool.not_true, Bool.false_or, Bool.and_eq_true,
          decide_eq_true_eq] at hsha
        obtain ⟨hi, ho⟩ := hsha
        refine ⟨b, rfl, ?_⟩
        rw [← h5, ho]
        have hlt : e.fromOut.toNat < 2 := by
          rw [ho] at h2
          simp at h2
          omega
        interval_cases h : e.fromOut.toNat <;> rfl
  refine ⟨hmain, ?_⟩
  intro ce hce
  rcases List.mem_filterMap.mp hce with ⟨e, he, hfe⟩
  by_cases hs : ifSrcB g e = true
  · rw [if_pos hs] at hfe
    obtain rfl := (Option.some_inj.mp hfe).symm
    unfold ifSrcB at hs
    cases hA : getNode g e.fromNode with
    | none => rw [hA] at hs; simp at hs
    | some a =>
        rw [hA] at hs
        have hname : a.type.name = "If" := by simpa using hs
        rcases hmain e he a hA hname with ⟨b, hB, hbool⟩
        refine ⟨b, hB, ?_⟩
        rcases List.getElem?_eq_some.mp hbool with ⟨hlt, hb⟩
        rw [← hb]
        exact List.getElem_mem hlt
  · rw [if_neg hs] at hfe
    cases hfe

/-- C10, witness at the If-chain graph. -/
theorem c10_control_targets_bool_input_witness :
    WF ifChainGraph ∧
      ((∀ e ∈ ifChainGraph.edges, ∀ a, getNode ifChainGraph e.fromNode = some a →
          a.type.name = "If" →
          ∃ b, getNode ifChainGraph e.toNode = some b ∧
            b.type.inputs[e.toIn.toNat]? = some Ty.bool) ∧
       (∀ ce ∈ buildControlEdges ifChainGraph ifChainGraph.edges,
          ∃ b, getNode ifChainGraph ce.toNode = some b ∧ Ty.bool ∈ b.type.inputs)) :=
  ⟨by decide, c10_control_targets_bool_input ifChainGraph (by decide)⟩

/-!  ## C1: reading from a Skipped source -/

theorem stateOf_upsert_found (id : Int) (st : ExecState) :
    ∀ (l : List (Int × ExecState)), l.any (fun kv => kv.1 == id) = true →
      List.find? (fun kv => kv.1 == id)
        (l.map (fun kv => if kv.1 == id then (id, st) else kv)) = some (id, st) := by
  intro l
  induction l with
  | nil => intro h; cases h
  | cons kv rest ih =>
      intro h
      by_cases hk : (kv.1 == id) = true
      · simp only [List.map_cons, if_pos hk]
        exact List.find?_cons_of_pos _ (by simp)
      · simp only [List.map_cons, if_neg hk]
        rw [List.find?_cons_of_neg _ (by simpa using hk)]
        apply ih
        simp only [List.any_cons, Bool.or_eq_true] at h
        rcases h with h | h
        · exact absurd h hk
        · exact h

theorem stateOf_setState (g : Graph) (id : Int) (st : ExecState) :
    stateOf (setState g id st) id = st := by
  unfold stateOf setState
  by_cases h : g.executionStates.any (fun kv => kv.1 == id) = true
  · rw [if_pos h]
    dsimp only []
    rw [stateOf_upsert_found id st g.executionStates h]
    rfl
  · rw [if_neg h]
    dsimp only []
    rw [List.find?_append]
    have hnone : g.executionStates.find? (fun kv => kv.1 == id) = none := by
      rw [List.find?_eq_none]
      intro x hx hpx
      exact h (List.any_eq_true.mpr ⟨x, hx, hpx⟩)
    rw [hnone]
    simp [List.find?]

theorem getNode_updateNode (g : Graph) (id0 x : Int) (f : Node → Node)
    (hid : ∀ nn, (f nn).id = nn.id) :
    getNode (updateNode g id0 f) x =
      (getNode g x).map (fun n => if n.id == id0 then f n else n) := by
  unfold getNode updateNode
  dsimp only []
  rw [findMapPred g.nodes (fun n => if n.id == id0 then f n else n)
    (fun m => m.id == x)
    (fun n => by by_cases hc : (n.id == id0) = true <;> simp [hc, hid n])]

theorem pullLoop_ok_sound (g : Graph) :
    ∀ (slots : List (Int × Int)) (i : Nat) (vals res : List Value),
      pullLoop g slots i vals = (res, true) → ∀ p ∈ slots, slotReadOkB g p = true := by
  intro slots
  induction slots with
  | nil => intro i vals res h p hp; cases hp
  | cons q rest ih =>
      intro i vals res h p hp
      obtain ⟨src, sout⟩ := q
      unfold pullLoop at h
      by_cases hs : src < 0
      · rw [if_pos hs] at h
        rcases List.mem_cons.mp hp with rfl | hp
        · simp [slotReadOkB, hs]
        · exact ih (i + 1) vals res h p hp
      · rw [if_neg hs] at h
        cases hup : getNode g src with
        | none => rw [hup] at h; simp at h
        | some up =>
            rw [hup] at h
            dsimp only [] at h
            by_cases hrange : sout < 0 ∨ (up.outputValues.length : Int) ≤ sout
            · rw [if_pos hrange] at h; simp at h
            · rw [if_neg hrange] at h
              cases hv : up.outputValues[sout.toNat]? with
              | none => rw [hv] at h; simp at h
              | some v =>
                  rw [hv] at h
                  rcases List.mem_cons.mp hp with rfl | hp
                  · push_neg at hrange
                    simp [slotReadOkB, hs, hup]
                    omega
                  · exact ih (i + 1) (vals.set i v) res h p hp

/-- C1 amended: a node task that passes its gate and whose input map binds a
slot to a source lacking the requested output (in particular a Skipped
source, whose `outputValues` stayed empty) does not propagate Skipped;
instead the run's `failed` flag is set with the error
"Dangling edge or output index OOB", the node's state remains Active (not
Skipped), and its compute never runs (its outputs stay as they were). -/
theorem c1_skipped_source_read_fails (m : List (Int × List (Int × Int))) (g : Graph)
    (id : Int) (n : Node) (k : Int) (slots : List (Int × Int))
    (hfind : m.find? (fun kv => kv.1 == id) = some (k, slots))
    (hbad : ∃ p ∈ slots, ¬ slotReadOkB g p = true) :
    (execNodeActive m g id n).2 = true ∧
    (execNodeActive m g id n).1.lastError = "Dangling edge or output index OOB" ∧
    stateOf (execNodeActive m g id n).1 id = .active ∧
    (getNode (execNodeActive m g id n).1 id).map (fun x => x.outputValues) =
      (getNode g id).map (fun x => x.outputValues) := by
  obtain ⟨p, hp, hpbad⟩ := hbad
  unfold execNodeActive
  rw [hfind]
  dsimp only []
  rcases hpl : pullLoop (setState g id .active) slots 0
      (resizeValues n.inputValues slots.length) with ⟨vals, ok⟩
  cases ok with
  | true =>
      exact absurd (pullLoop_ok_sound (setState g id .active) slots 0 _ vals hpl p hp)
        hpbad
  | false =>
      refine ⟨rfl, rfl, ?_, ?_⟩
      · show stateOf { updateNode (setState g id .active) id _ with
            lastError := "Dangling edge or output index OOB" } id = ExecState.active
        have h1 : stateOf { updateNode (setState g id .active) id
              (fun mm => { mm with inputValues := vals }) with
              lastError := "Dangling edge or output index OOB" } id =
            stateOf (setState g id .active) id := rfl
        rw [h1, stateOf_setState]
      · show (getNode { updateNode (setState g id .active) id _ with
            lastError := "Dangling edge or output index OOB" } id).map _ = _
        have h2 : getNode { updateNode (setState g id .active) id
              (fun mm => { mm with inputValues := vals }) with
              lastError := "Dangling edge or output index OOB" } id =
            getNode (updateNode (setState g id .active) id
              (fun mm => { mm with inputValues := vals })) id := rfl
        rw [h2, getNode_updateNode (setState g id .active) id id
          (fun mm => { mm with inputValues := vals }) (fun nn => rfl)]
        have h3 : getNode (setState g id .active) id = getNode g id := rfl
        rw [h3]
        cases getNode g id with
        | none => rfl
        | some nn =>
            by_cases hc : (nn.id == id) = true
            · have hceq : nn.id = id := by simpa using hc
              simp [hceq]
            · have hcne : ¬ nn.id = id := by simpa using hc
              simp [hcne]

/-- C1 counterexample: in `skipReadGraph`, node 3 is Skipped and node 4
passes its gate, pulls slot 0 from node 3 (whose outputs are empty), and the
run fails with the dangling-edge error; node 4 ends Active, not Skipped,
refuting both the Skipped-propagation and "the run does not fail on account
of that read". -/
theorem c1_counterexample :
    (engineGraphRun skipReadGraph).code = 2 ∧
    (engineGraphRun skipReadGraph).msg = some "Dangling edge or output index OOB" ∧
    stateOf (engineGraphRun skipReadGraph).g 3 = .skipped ∧
    stateOf (engineGraphRun skipReadGraph).g 4 = .active ∧
    (getNode (engineGraphRun skipReadGraph).g 4).map (fun n => n.outputValues) = some [] := by
  refine ⟨by decide, by decide, by decide, by decide, by decide⟩

/-- C1 amended, witness: the mid-run state of `skipReadGraph` just before
node 4 executes, with the bad bound slot (3,0) exhibited concretely. -/
theorem c1_skipped_source_read_fails_witness :
    ((buildInputs skipReadGraph.edges).find? (fun kv => kv.1 == 4) =
      some (4, [(3, 0)])) ∧
    (∃ p ∈ [((3 : Int), (0 : Int))], ¬ slotReadOkB skipReadMidState p = true) ∧
    ((execNodeActive (buildInputs skipReadGraph.edges) skipReadMidState 4 skipReadNode4).2 =
        true ∧
      (execNodeActive (buildInputs skipReadGraph.edges) skipReadMidState 4
          skipReadNode4).1.lastError = "Dangling edge or output index OOB" ∧
      stateOf (execNodeActive (buildInputs skipReadGraph.edges) skipReadMidState 4
          skipReadNode4).1 4 = .active ∧
      (getNode (execNodeActive (buildInputs skipReadGraph.edges) skipReadMidState 4
          skipReadNode4).1 4).map (fun x => x.outputValues) =
        (getNode skipReadMidState 4).map (fun x => x.outputValues)) :=
  ⟨by decide, ⟨(3, 0), by decide, by decide⟩,
   c1_skipped_source_read_fails (buildInputs skipReadGraph.edges) skipReadMidState 4
     skipReadNode4 4 [(3, 0)] (by decide) ⟨(3, 0), by decide, by decide⟩⟩

/-!  ## C2: which node is gated, and by what -/

theorem ctrlFind_eq_edgeFind (g : Graph) (es : List Edge) (id : Int) :
    (buildControlEdges g es).find? (fun c => c.toNode == id) =
      (es.find? (fun e => ifSrcB g e && e.toNode == id)).map
        (fun e => { fromNode := e.fromNode, fromOut := e.fromOut, toNode := e.toNode,
                    condition := e.fromOut == (0 : Int) }) := by
  induction es with
  | nil => rfl
  | cons e rest ih =>
      unfold buildControlEdges at ih ⊢
      rw [List.filterMap_cons]
      by_cases hs : ifSrcB g e = true
      · rw [if_pos hs]
        by_cases ht : (e.toNode == id) = true
        · rw [List.find?_cons_of_pos _ (by simpa using ht),
            List.find?_cons_of_pos _ (by simp [hs, ht])]
          rfl
        · rw [List.find?_cons_of_neg _ (by simpa using ht),
            List.find?_cons_of_neg _ (by simp [hs, ht])]
          exact ih
      · rw [if_neg hs]
        rw [List.find?_cons_of_neg _ (by simp [hs])]
        exact ih

/-- C2 counterexample: in `overwriteGateGraph`, node 4's single input-map
entry points at the plain Bool node 5 (the If edge was overwritten), so by
the claim node 4 is not gated and would compute; the code nevertheless gates
node 4 by the first declared control edge from If 2 and Skips it, leaving
its outputs empty while the run succeeds. -/
theorem c2_counterexample :
    slotAt (buildInputs overwriteGateGraph.edges) 4 0 = some (5, 0) ∧
    (getNode overwriteGateGraph 5).map (fun n => n.type.name) = some "Bool" ∧
    (getNode overwriteGateGraph 4).map (fun n => n.type.inputs.length) = some 1 ∧
    (engineGraphRun overwriteGateGraph).code = 0 ∧
    stateOf (engineGraphRun overwriteGateGraph).g 4 = .skipped ∧
    (getNode (engineGraphRun overwriteGateGraph).g 4).map (fun n => n.outputValues) =
      some [] := by
  refine ⟨by decide, by decide, by decide, by decide, by decide, by decide⟩

/-- C2 amended: a node is gated iff at least one *declared data edge* whose
source node is of the conditional type targets it — the last-write-wins
input map plays no role — and the controlling record is the one derived
from the *first such edge in edge-declaration order*, with
`requiredCondition = (portIndex == 0)`.  A gated node (with controlling id
≠ -1) whose controlling If has no outputs is marked Skipped without
computing; otherwise it is Skipped at the gate exactly when
`requiredCondition ≠` the If's output 0, and a node that passes the gate
(or is not gated) is never marked Skipped. -/
theorem c2_gating_by_declaration_order :
    (∀ (g : Graph) (es : List Edge) (id : Int),
        (buildControlEdges g es).find? (fun c => c.toNode == id) =
          (es.find? (fun e => ifSrcB g e && e.toNode == id)).map
            (fun e => { fromNode := e.fromNode, fromOut := e.fromOut, toNode := e.toNode,
                        condition := e.fromOut == (0 : Int) })) ∧
    (∀ (m : List (Int × List (Int × Int))) (ctrls : List ControlEdge) (g : Graph)
        (id : Int) (n : Node) (c : ControlEdge),
        getNode g id = some n →
        ctrls.find? (fun c => c.toNode == id) = some c → c.fromNode ≠ -1 →
        ((getNode g c.fromNode = none →
            execNode m ctrls (g, false) id = (setState g id .skipped, false)) ∧
         (∀ ifn, getNode g c.fromNode = some ifn → ifn.outputValues = [] →
            execNode m ctrls (g, false) id = (setState g id .skipped, false)) ∧
         (∀ ifn bval, getNode g c.fromNode = some ifn →
            ifn.outputValues.head? = some (.boolean bval) →
            (c.condition ≠ bval →
              execNode m ctrls (g, false) id = (setState g id .skipped, false)) ∧
            (c.condition = bval →
              execNode m ctrls (g, false) id = execNodeActive m g id n)))) ∧
    (∀ (m : List (Int × List (Int × Int))) (ctrls : List ControlEdge) (g : Graph)
        (id : Int) (n : Node),
        getNode g id = some n →
        ctrls.find? (fun c => c.toNode == id) = none →
        execNode m ctrls (g, false) id = execNodeActive m g id n) ∧
    (∀ (m : List (Int × List (Int × Int))) (g : Graph) (id : Int) (n : Node),
        stateOf (execNodeActive m g id n).1 id ≠ .skipped) := by
  refine ⟨ctrlFind_eq_edgeFind, ?_, ?_, ?_⟩
  · intro m ctrls g id n c hn hc hneg
    refine ⟨?_, ?_, ?_⟩
    · intro hif
      simp [execNode, hn, hc, hneg, hif]
    · intro ifn hif hemp
      simp [execNode, hn, hc, hneg, hif, hemp]
    · intro ifn bval hif hhead
      constructor
      · intro hcond
        have hbeq : (c.condition == bval) = false := by
          simp [hcond]
        simp [execNode, hn, hc, hneg, hif, hhead, hbeq]
      · intro hcond
        have hbeq : (c.condition == bval) = true := by simp [hcond]
        simp [execNode, hn, hc, hneg, hif, hhead, hbeq]
  · intro m ctrls g id n hn hc
    simp [execNode, hn, hc]
  · intro m g id n
    unfold execNodeActive
    cases h1 : m.find? (fun kv => kv.1 == id) with
    | none =>
        dsimp only []
        cases h2 : n.type.compute n.inputValues n.params with
        | error e =>
            intro hcon
            have hcon2 : stateOf (setState g id ExecState.active) id =
                ExecState.skipped := hcon
            rw [stateOf_setState] at hcon2
            cases hcon2
        | ok outs =>
            intro hcon
            have hcon2 : stateOf (setState (updateNode (setState g id ExecState.active) id
                (fun mm => { mm with outputValues := outs })) id ExecState.completed) id =
                ExecState.skipped := hcon
            rw [stateOf_setState] at hcon2
            cases hcon2
    | some kv =>
        obtain ⟨k, slots⟩ := kv
        dsimp only []
        rcases hp : pullLoop (setState g id .active) slots 0
            (resizeValues n.inputValues slots.length) with ⟨vals, ok⟩
        cases ok with
        | false =>
            intro hcon
            have hcon2 : stateOf (setState g id ExecState.active) id =
                ExecState.skipped := hcon
            rw [stateOf_setState] at hcon2
            cases hcon2
        | true =>
            show stateOf (match n.type.compute vals n.params with
              | Except.error e =>
                  ({ updateNode (setState g id ExecState.active) id
                        (fun mm => { mm with inputValues := vals }) with
                      lastError := n.type.name ++ " compute failed: " ++ e }, true)
              | Except.ok outs =>
                  (setState (updateNode (updateNode (setState g id ExecState.active) id
                        (fun mm => { mm with inputValues := vals })) id
                        (fun mm => { mm with outputValues := outs })) id
                      ExecState.completed,
                    false)).1 id ≠ ExecState.skipped
            cases h2 : n.type.compute vals n.params with
            | error e =>
                intro hcon
                have hcon2 : stateOf (setState g id ExecState.active) id =
                    ExecState.skipped := hcon
                rw [stateOf_setState] at hcon2
                cases hcon2
            | ok outs =>
                intro hcon
                have hcon2 : stateOf (setState (updateNode (updateNode (setState g id
                    ExecState.active) id (fun mm => { mm with inputValues := vals })) id
                    (fun mm => { mm with outputValues := outs })) id
                    ExecState.completed) id = ExecState.skipped := hcon
                rw [stateOf_setState] at hcon2
                cases hcon2

/-- C2 amended, witness: in the If-chain mid-run state, node 3's gate (the
control edge from If 2's else port, condition false) sees output 0 = true
and Skips node 3. -/
theorem c2_gating_by_declaration_order_witness :
    ((buildControlEdges (runSetup ifChainGraph) ifChainGraph.edges).find?
        (fun c => c.toNode == 3) =
      some { fromNode := 2, fromOut := 1, toNode := 3, condition := false }) ∧
    (getNode ifChainMidState 2).map (fun n => n.outputValues.head?) =
      some (some (Value.boolean true)) ∧
    execNode (buildInputs ifChainGraph.edges)
        (buildControlEdges (runSetup ifChainGraph) ifChainGraph.edges)
        (ifChainMidState, false) 3 =
      (setState ifChainMidState 3 .skipped, false) := by
  refine ⟨by decide, by decide, ?_⟩
  have hn : getNode ifChainMidState 3 = some ifChainNode3 := rfl
  have h := (c2_gating_by_declaration_order.2.1 (buildInputs ifChainGraph.edges)
    (buildControlEdges (runSetup ifChainGraph) ifChainGraph.edges)
    ifChainMidState 3 ifChainNode3
    { fromNode := 2, fromOut := 1, toNode := 3, condition := false }
    hn (by decide) (by decide)).2.2
  exact (h ((getNode ifChainMidState 2).getD fallbackNode) true rfl
    (by decide)).1 (by decide)

/-!  ## C7: the input map, unbound sentinels and truncation -/

theorem updSlots_length (v : List (Int × Int)) (e : Edge) :
    (updSlots v e).length = max v.length (e.toIn.toNat + 1) := by
  unfold updSlots
  dsimp only []
  by_cases h : v.length ≤ e.toIn.toNat
  · rw [if_pos h, List.length_set, List.length_append, List.length_replicate]
    omega
  · rw [if_neg h, List.length_set]
    omega

theorem updSlots_getElem (v : List (Int × Int)) (e : Edge) (i : Nat) :
    (updSlots v e)[i]? =
      if i = e.toIn.toNat then some (e.fromNode, e.fromOut)
      else if i < v.length then v[i]?
      else if i < e.toIn.toNat then some (-1, -1)
      else none := by
  unfold updSlots
  dsimp only []
  by_cases h : v.length ≤ e.toIn.toNat
  · rw [if_pos h]
    by_cases hi : i = e.toIn.toNat
    · subst hi
      rw [if_pos rfl,
        List.getElem?_set_eq (by rw [List.length_append, List.length_replicate]; omega)]
    · rw [if_neg hi, List.getElem?_set_ne (by omega), List.getElem?_append]
      by_cases h2 : i < v.length
      · rw [if_pos h2, if_pos h2]
      · rw [if_neg h2, if_neg h2, List.getElem?_replicate]
        by_cases h3 : i < e.toIn.toNat
        · rw [if_pos (by omega), if_pos h3]
        · rw [if_neg (by omega), if_neg h3]
  · rw [if_neg h]
    by_cases hi : i = e.toIn.toNat
    · subst hi
      rw [if_pos rfl, List.getElem?_set_eq (by omega)]
    · rw [if_neg hi, List.getElem?_set_ne (by omega)]
      by_cases h2 : i < v.length
      · rw [if_pos h2]
      · rw [if_neg h2, if_neg (by omega)]
        exact List.getElem?_eq_none (by omega)

theorem maxSlots_append (es : List Edge) (e : Edge) :
    maxSlots (es ++ [e]) = max (maxSlots es) (e.toIn.toNat + 1) := by
  unfold maxSlots
  rw [List.foldl_append]
  rfl

theorem foldlMax_le_acc :
    ∀ (l : List Edge) (acc : Nat), acc ≤ l.foldl (fun a x => max a (x.toIn.toNat + 1)) acc := by
  intro l
  induction l with
  | nil => intro acc; exact le_refl _
  | cons e rest ih =>
      intro acc
      exact le_trans (le_max_left _ _) (ih (max acc (e.toIn.toNat + 1)))

theorem maxSlots_bound :
    ∀ (l : List Edge) (e : Edge), e ∈ l → e.toIn.toNat + 1 ≤ maxSlots l := by
  have key : ∀ (l : List Edge) (e : Edge), e ∈ l → ∀ acc,
      e.toIn.toNat + 1 ≤ l.foldl (fun a x => max a (x.toIn.toNat + 1)) acc := by
    intro l
    induction l with
    | nil => intro e he; cases he
    | cons x rest ih =>
        intro e he acc
        rcases List.mem_cons.mp he with rfl | he
        · exact le_trans (le_max_right acc _) (foldlMax_le_acc rest _)
        · exact ih e he _
  intro l e he
  exact key l e he 0

theorem foldlUpdSlots_length (tgt : List Edge) :
    (tgt.foldl updSlots []).length = maxSlots tgt := by
  induction tgt using List.reverseRecOn with
  | nil => rfl
  | append_singleton es e ih =>
      rw [List.foldl_append, maxSlots_append]
      dsimp only [List.foldl]
      rw [updSlots_length, ih]

theorem foldlUpdSlots_getElem (tgt : List Edge) (i : Nat) :
    (tgt.foldl updSlots [])[i]? =
      if i < maxSlots tgt then
        match (tgt.filter (fun e => e.toIn.toNat == i)).getLast? with
        | some e => some (e.fromNode, e.fromOut)
        | none => some (-1, -1)
      else none := by
  induction tgt using List.reverseRecOn with
  | nil => simp [maxSlots]
  | append_singleton es e ih =>
      rw [List.foldl_append]
      dsimp only [List.foldl]
      rw [updSlots_getElem, foldlUpdSlots_length, maxSlots_append, List.filter_append]
      by_cases hie : i = e.toIn.toNat
      · rw [if_pos hie,
          if_pos (lt_of_lt_of_le (show i < e.toIn.toNat + 1 by omega)
            (le_max_right (maxSlots es) _)),
          show List.filter (fun x => x.toIn.toNat == i) [e] = [e] from by simp [hie.symm],
          List.getLast?_append]
        rfl
      · rw [if_neg hie,
          show List.filter (fun x => x.toIn.toNat == i) [e] = ([] : List Edge) from by
            simp; omega,
          List.append_nil]
        by_cases h2 : i < maxSlots es
        · rw [if_pos h2, ih, if_pos h2,
            if_pos (lt_of_lt_of_le h2 (le_max_left _ _))]
        · rw [if_neg h2]
          by_cases h3 : i < e.toIn.toNat
          · rw [if_pos h3,
              if_pos (lt_of_lt_of_le (by omega) (le_max_right (maxSlots es) _)),
              show List.filter (fun x => x.toIn.toNat == i) es = ([] : List Edge) from by
                rw [List.filter_eq_nil]
                intro a ha
                have := maxSlots_bound es a ha
                simp
                omega]
            rfl
          · rw [if_neg h3,
              if_neg (by
                have hle : max (maxSlots es) (e.toIn.toNat + 1) ≤ i :=
                  max_le (by omega) (by omega)
                omega)]

theorem addEdge_entry (m : List (Int × List (Int × Int))) (e : Edge) (toId : Int) :
    (addEdgeToInputs m e).find? (fun kv => kv.1 == toId) =
      (if toId = e.toNode then
        some (toId,
          updSlots (((m.find? (fun kv => kv.1 == toId)).map (fun kv => kv.2)).getD []) e)
      else m.find? (fun kv => kv.1 == toId)) := by
  unfold addEdgeToInputs
  by_cases hex : m.any (fun kv => kv.1 == e.toNode) = true
  · rw [if_pos hex]
    rw [findMapPred m (fun kv => if kv.1 == e.toNode then (kv.1, updSlots kv.2 e) else kv)
      (fun kv => kv.1 == toId)
      (fun kv => by by_cases hk : (kv.1 == e.toNode) = true <;> simp [hk])]
    cases hf : m.find? (fun kv => kv.1 == toId) with
    | none =>
        by_cases ht : toId = e.toNode
        · subst ht
          exfalso
          rcases List.any_eq_true.mp hex with ⟨kv, hkv, hpk⟩
          exact (List.find?_eq_none.mp hf kv hkv) hpk
        · rw [if_neg ht]
          rfl
    | some kv =>
        have hkeq : kv.1 = toId := by simpa using List.find?_some hf
        by_cases ht : toId = e.toNode
        · rw [if_pos ht]
          simp [hkeq, ht]
        · rw [if_neg ht]
          simp [hkeq, ht]
  · rw [if_neg hex]
    rw [List.find?_append]
    by_cases ht : toId = e.toNode
    · have hf : m.find? (fun kv => kv.1 == toId) = none := by
        rw [List.find?_eq_none]
        intro kv hkv hpk
        refine hex (List.any_eq_true.mpr ⟨kv, hkv, ?_⟩)
        simpa [← ht] using hpk
      have h2 : List.find? (fun kv => kv.1 == toId) [(e.toNode, updSlots [] e)] =
          some (e.toNode, updSlots [] e) :=
        List.find?_cons_of_pos _ (by simp [ht])
      rw [hf, if_pos ht, h2]
      simp [ht]
    · rw [if_neg ht]
      have h1 : List.find? (fun kv => kv.1 == toId) [(e.toNode, updSlots [] e)] = none := by
        rw [List.find?_eq_none]
        intro x hx
        rw [List.mem_singleton] at hx
        subst hx
        simp
        omega
      rw [h1]
      cases m.find? (fun kv => kv.1 == toId) with
      | none => rfl
      | some kv => rfl

theorem buildInputs_entry (edges : List Edge) (toId : Int) :
    (buildInputs edges).find? (fun kv => kv.1 == toId) =
      (if (edges.filter (fun e => e.toNode == toId)).isEmpty then none
       else some (toId, (edges.filter (fun e => e.toNode == toId)).foldl updSlots [])) := by
  induction edges using List.reverseRecOn with
  | nil => rfl
  | append_singleton es e ih =>
      unfold buildInputs at ih ⊢
      rw [List.foldl_append]
      dsimp only [List.foldl]
      rw [addEdge_entry, ih, List.filter_append]
      by_cases ht : toId = e.toNode
      · rw [if_pos ht]
        rw [show List.filter (fun x => x.toNode == toId) [e] = [e] from by simp [ht.symm]]
        rw [show (List.filter (fun x => x.toNode == toId) es ++ [e]).isEmpty = false from by
          simp [List.isEmpty_iff]]
        by_cases hemp : (List.filter (fun x => x.toNode == toId) es).isEmpty = true
        · rw [if_pos hemp]
          rw [show List.filter (fun x => x.toNode == toId) es = ([] : List Edge) from by
            simpa [List.isEmpty_iff] using hemp]
          rfl
        · rw [if_neg hemp]
          rw [List.foldl_append]
          rfl
      · rw [if_neg ht]
        rw [show List.filter (fun x => x.toNode == toId) [e] = ([] : List Edge) from by
          simp
          omega]
        rw [List.append_nil]

theorem buildInputs_refines_slotSpec (edges : List Edge) (toId : Int) (i : Nat) :
    slotAt (buildInputs edges) toId i = slotSpec edges toId i := by
  unfold slotAt slotSpec
  rw [buildInputs_entry]
  dsimp only []
  by_cases he : (edges.filter (fun e => e.toNode == toId)).isEmpty = true
  · rw [if_pos he, if_pos he]
  · rw [if_neg he, if_neg he]
    dsimp only []
    rw [foldlUpdSlots_getElem]

theorem pullLoop_lower (g : Graph) :
    ∀ (slots : List (Int × Int)) (i : Nat) (vals : List Value) (ms : Nat), ms < i →
      (pullLoop g slots i vals).1[ms]? = vals[ms]? := by
  intro slots
  induction slots with
  | nil => intro i vals ms hm; rfl
  | cons q rest ih =>
      intro i vals ms hm
      obtain ⟨src, sout⟩ := q
      unfold pullLoop
      by_cases hs : src < 0
      · rw [if_pos hs]
        exact ih (i + 1) vals ms (by omega)
      · rw [if_neg hs]
        cases getNode g src with
        | none => rfl
        | some up =>
            dsimp only []
            by_cases hrange : sout < 0 ∨ (up.outputValues.length : Int) ≤ sout
            · rw [if_pos hrange]
            · rw [if_neg hrange]
              cases up.outputValues[sout.toNat]? with
              | none => rfl
              | some v =>
                  rw [ih (i + 1) (vals.set i v) ms (by omega)]
                  exact List.getElem?_set_ne (by omega)

theorem pullLoop_sentinel (g : Graph) :
    ∀ (slots : List (Int × Int)) (i : Nat) (vals : List Value) (j : Nat)
      (hj : j < slots.length),
      (slots.get ⟨j, hj⟩).1 < 0 →
      (pullLoop g slots i vals).1[i + j]? = vals[i + j]? := by
  intro slots
  induction slots with
  | nil => intro i vals j hj; exact absurd hj (by simp)
  | cons q rest ih =>
      intro i vals j hj hneg
      obtain ⟨src, sout⟩ := q
      unfold pullLoop
      cases j with
      | zero =>
          have hsrc : src < 0 := hneg
          rw [if_pos hsrc, Nat.add_zero]
          exact pullLoop_lower g rest (i + 1) vals i (by omega)
      | succ j2 =>
          have hj2 : j2 < rest.length := by simpa using hj
          by_cases hs : src < 0
          · rw [if_pos hs, show i + (j2 + 1) = (i + 1) + j2 from by omega]
            exact ih (i + 1) vals j2 hj2 hneg
          · rw [if_neg hs]
            cases getNode g src with
            | none => rfl
            | some up =>
                dsimp only []
                by_cases hrange : sout < 0 ∨ (up.outputValues.length : Int) ≤ sout
                · rw [if_pos hrange]
                · rw [if_neg hrange]
                  cases up.outputValues[sout.toNat]? with
                  | none => rfl
                  | some v =>
                      rw [show i + (j2 + 1) = (i + 1) + j2 from by omega,
                        ih (i + 1) (vals.set i v) j2 hj2 hneg]
                      exact List.getElem?_set_ne (by omega)

/-- C7 counterexample: `Number(5)` bound only to `AddNumber` slot 0.  Slot 1
(unbound, below the node's arity 2) is absent from the input map rather
than held at a sentinel, and at run time the node's `inputValues` is resized
down to 1, so the pre-seeded zero is discarded — the compute sees one input
and the run fails, instead of computing 5 + 0. -/
theorem c7_counterexample :
    slotAt (buildInputs truncationGraph.edges) 3 0 = some (1, 0) ∧
    slotAt (buildInputs truncationGraph.edges) 3 1 = none ∧
    (getNode truncationGraph 3).map (fun n => n.type.inputs.length) = some 2 ∧
    (engineGraphRun truncationGraph).code = 2 ∧
    (engineGraphRun truncationGraph).msg =
      some "AddNumber compute failed: AddNumber: invalid inputs" ∧
    (getNode (engineGraphRun truncationGraph).g 3).map (fun n => n.inputValues) =
      some [Value.num 5] := by
  refine ⟨by decide, by decide, by decide, by decide, by decide, by decide⟩

/-- C7 amended: the input map entry of (target, slot) is exactly the
spec-side `slotSpec`: the last declared connect for the pair wins, a slot
with no connect *below the target's highest connected index* holds the
sentinel (-1,-1), and slots beyond that index have no entry at all; at run
time a sentinel slot keeps the pre-seeded value, but a node's `inputValues`
is resized to the entry's length, so unbound trailing slots are truncated
away rather than kept (the truncationGraph run fails with node 3's inputs
reduced to length 1). -/
theorem c7_input_map_semantics :
    (∀ (edges : List Edge) (toId : Int) (i : Nat),
        slotAt (buildInputs edges) toId i = slotSpec edges toId i) ∧
    (∀ (g : Graph) (slots : List (Int × Int)) (i : Nat) (vals : List Value)
        (j : Nat) (hj : j < slots.length),
        (slots.get ⟨j, hj⟩).1 < 0 →
        (pullLoop g slots i vals).1[i + j]? = vals[i + j]?) ∧
    ((engineGraphRun truncationGraph).code = 2 ∧
     (getNode (engineGraphRun truncationGraph).g 3).map (fun n => n.inputValues.length) =
       some 1) :=
  ⟨buildInputs_refines_slotSpec,
   fun g slots i vals j hj h => pullLoop_sentinel g slots i vals j hj h,
   by decide, by decide⟩

/-- C7 amended, witness: a one-slot sentinel map keeps the pre-seeded value. -/
theorem c7_input_map_semantics_witness :
    ((0 : Nat) < [((-1 : Int), (-1 : Int))].length) ∧
    (([((-1 : Int), (-1 : Int))].get ⟨0, by decide⟩).1 < 0) ∧
    (pullLoop emptyGraph [(-1, -1)] 0 [Value.num 7]).1[0]? =
      ([Value.num 7] : List Value)[0]? :=
  ⟨by decide, by decide,
   c7_input_map_semantics.2.1 emptyGraph [(-1, -1)] 0 [Value.num 7] 0 (by decide)
     (by decide)⟩

/-!  ### C5 support: correctness of the Kahn drain. -/

/-- The decrement count never exceeds the indegree. -/
theorem decCnt_le_inCount (edges : List Edge) (P : List Int) (v : Int) :
    (decCnt edges P v : Int) ≤ inCount edges v := by
  unfold decCnt inCount
  have hsub : List.Sublist
      (edges.filter (fun e => e.toNode == v && decide (e.fromNode ∈ P)))
      (edges.filter (fun e => e.toNode == v)) := by
    apply List.monotone_filter_right
    intro a ha
    simp only [Bool.and_eq_true] at ha
    exact ha.1
  exact_mod_cast hsub.length_le

/-- No decrements before any node is processed. -/
theorem decCnt_nil (edges : List Edge) (v : Int) : decCnt edges [] v = 0 := by
  unfold decCnt
  simp

/-- Indegrees are counts, hence nonnegative. -/
theorem inCount_nonneg (edges : List Edge) (v : Int) : 0 ≤ inCount edges v := by
  unfold inCount
  exact Int.natCast_nonneg _

/-- Filter lengths add over a disjoint disjunction of predicates. -/
theorem length_filter_or_disjoint {α : Type _} (l : List α) (p q : α → Bool)
    (hdis : ∀ a ∈ l, ¬(p a = true ∧ q a = true)) :
    (l.filter (fun a => p a || q a)).length =
      (l.filter p).length + (l.filter q).length := by
  induction l with
  | nil => rfl
  | cons a rest ih =>
      have hrest : ∀ x ∈ rest, ¬(p x = true ∧ q x = true) :=
        fun x hx => hdis x (List.mem_cons_of_mem a hx)
      by_cases hp : p a = true
      · have hq : q a = false := by
          rcases Bool.eq_false_or_eq_true (q a) with h | h
          · exact absurd ⟨hp, h⟩ (hdis a (List.mem_cons_self a rest))
          · exact h
        simp [List.filter_cons, hp, hq, ih hrest]
        omega
      · by_cases hq : q a = true
        · simp [List.filter_cons, hp, hq, ih hrest]
          omega
        · simp [List.filter_cons, hp, hq, ih hrest]

/-- Processing one more node adds exactly its out-edges into `v` to the
decrement count. -/
theorem decCnt_snoc (edges : List Edge) (P : List Int) (u v : Int) (hu : u ∉ P) :
    decCnt edges (P ++ [u]) v =
      decCnt edges P v +
        (edges.filter (fun e => e.toNode == v && e.fromNode == u)).length := by
  unfold decCnt
  have hcongr : edges.filter (fun e => e.toNode == v && decide (e.fromNode ∈ P ++ [u])) =
      edges.filter (fun e =>
        (e.toNode == v && decide (e.fromNode ∈ P)) || (e.toNode == v && e.fromNode == u)) := by
    refine List.filter_congr ?_
    intro e _
    by_cases h1 : e.toNode = v
    · by_cases h2 : e.fromNode ∈ P
      · simp [h1, h2, List.mem_append]
      · by_cases h3 : e.fromNode = u
        · simp [h1, h2, h3, List.mem_append]
        · simp [h1, h2, h3, List.mem_append]
    · have hne : (e.toNode == v) = false := by simpa using h1
      simp [hne]
  rw [hcongr]
  refine length_filter_or_disjoint edges _ _ ?_
  rintro e _ ⟨h1, h2⟩
  simp only [Bool.and_eq_true] at h1 h2
  have hmem : e.fromNode ∈ P := by simpa using h1.2
  have hfu : e.fromNode = u := by simpa using h2.2
  exact hu (hfu ▸ hmem)

/-- The out-edges of `u` into `v`, expressed over the full edge list. -/
theorem fanout_filter (edges : List Edge) (u v : Int) :
    ((fanout edges u).filter (fun e => e.toNode == v)).length =
      (edges.filter (fun e => e.toNode == v && e.fromNode == u)).length := by
  unfold fanout
  rw [List.filter_filter]

/-- Everything `decTargets` does, in one induction: the counter update
formula, queue extension by freshly zeroed targets, queue distinctness, the
pushed-iff-nonpositive property, and the crossing property (a counter that
ends nonpositive was either already nonpositive or hit zero and was pushed). -/
theorem decTargets_main (es : List Edge) :
    ∀ (indeg : Int → Int) (q : List Int),
      q.Nodup → (∀ v ∈ q, indeg v ≤ 0) →
      (∀ v, (decTargets es indeg q).1 v =
        indeg v - ((es.filter (fun e => e.toNode == v)).length : Int)) ∧
      (∃ new, (decTargets es indeg q).2 = q ++ new ∧
        (∀ t ∈ new, ∃ e ∈ es, e.toNode = t)) ∧
      (decTargets es indeg q).2.Nodup ∧
      (∀ v ∈ (decTargets es indeg q).2, (decTargets es indeg q).1 v ≤ 0) ∧
      (∀ v, (decTargets es indeg q).1 v ≤ 0 →
        indeg v ≤ 0 ∨ v ∈ (decTargets es indeg q).2) := by
  induction es with
  | nil =>
      intro indeg q hnd hq
      refine ⟨fun v => by simp [decTargets], ⟨[], by simp [decTargets], by simp⟩,
        by simpa [decTargets] using hnd, fun v hv => hq v (by simpa [decTargets] using hv),
        fun v hv => Or.inl hv⟩
  | cons e rest ih =>
      intro indeg q hnd hq
      have hlen : ∀ v, ((e :: rest).filter (fun x => x.toNode == v)).length =
          (if e.toNode = v then 1 else 0) + (rest.filter (fun x => x.toNode == v)).length := by
        intro v
        by_cases h : e.toNode = v
        · simp [List.filter_cons, h]
          omega
        · simp [List.filter_cons, h]
      by_cases hz : indeg e.toNode - 1 = 0
      · -- the decrement reaches zero: the target is pushed
        have hcond : (if e.toNode = e.toNode then indeg e.toNode - 1 else indeg e.toNode) = 0 := by
          simpa using hz
        have hstep : decTargets (e :: rest) indeg q =
            decTargets rest (fun v => if v = e.toNode then indeg v - 1 else indeg v)
              (q ++ [e.toNode]) := by
          show (let d := fun v => if v = e.toNode then indeg v - 1 else indeg v
                let q2 := if d e.toNode = 0 then q ++ [e.toNode] else q
                decTargets rest d q2) = _
          dsimp only []
          rw [if_pos hcond]
        have hnotq : e.toNode ∉ q := by
          intro hmem
          have h0 := hq e.toNode hmem
          omega
        have hnd2 : (q ++ [e.toNode]).Nodup := by
          rw [List.nodup_append]
          exact ⟨hnd, List.nodup_singleton _, by
            intro a ha hb
            rw [List.mem_singleton] at hb
            exact hnotq (hb ▸ ha)⟩
        have hq2 : ∀ v ∈ q ++ [e.toNode],
            (fun v => if v = e.toNode then indeg v - 1 else indeg v) v ≤ 0 := by
          intro v hv
          dsimp only []
          rcases List.mem_append.mp hv with h | h
          · have h0 := hq v h
            by_cases he : v = e.toNode
            · subst he
              rw [if_pos rfl]
              omega
            · simpa only [if_neg he] using h0
          · rw [List.mem_singleton] at h
            subst h
            rw [if_pos rfl]
            omega
        rcases ih _ (q ++ [e.toNode]) hnd2 hq2 with
          ⟨hf, ⟨new, hnew, hnewsrc⟩, hnd3, hle3, hcross3⟩
        rw [hstep]
        refine ⟨?_, ⟨e.toNode :: new, by rw [hnew, List.append_assoc, List.singleton_append], ?_⟩, hnd3, hle3, ?_⟩
        · intro v
          rw [hf v, hlen v]
          by_cases he : v = e.toNode
          · subst he
            rw [if_pos rfl, if_pos rfl]
            push_cast
            ring
          · have hne : ¬(e.toNode = v) := fun h => he h.symm
            simp only [if_neg he, if_neg hne]
            push_cast
            ring
        · intro t ht
          rcases List.mem_cons.mp ht with h | h
          · exact ⟨e, List.mem_cons_self _ _, h.symm⟩
          · rcases hnewsrc t h with ⟨e2, he2, ht2⟩
            exact ⟨e2, List.mem_cons_of_mem _ he2, ht2⟩
        · intro v hv
          rcases hcross3 v hv with h | h
          · by_cases he : v = e.toNode
            · subst he
              refine Or.inr ?_
              rw [hnew]
              exact List.mem_append.mpr (Or.inl (List.mem_append.mpr
                (Or.inr (List.mem_singleton.mpr rfl))))
            · rw [if_neg he] at h
              exact Or.inl h
          · exact Or.inr h
      · -- no push
        have hcond : ¬((if e.toNode = e.toNode then indeg e.toNode - 1 else indeg e.toNode) = 0) := by
          simpa using hz
        have hstep : decTargets (e :: rest) indeg q =
            decTargets rest (fun v => if v = e.toNode then indeg v - 1 else indeg v) q := by
          show (let d := fun v => if v = e.toNode then indeg v - 1 else indeg v
                let q2 := if d e.toNode = 0 then q ++ [e.toNode] else q
                decTargets rest d q2) = _
          dsimp only []
          rw [if_neg hcond]
        have hq2 : ∀ v ∈ q,
            (fun v => if v = e.toNode then indeg v - 1 else indeg v) v ≤ 0 := by
          intro v hv
          dsimp only []
          have h0 := hq v hv
          by_cases he : v = e.toNode
          · subst he
            rw [if_pos rfl]
            omega
          · simpa only [if_neg he] using h0
        rcases ih _ q hnd hq2 with ⟨hf, ⟨new, hnew, hnewsrc⟩, hnd3, hle3, hcross3⟩
        rw [hstep]
        refine ⟨?_, ⟨new, hnew, ?_⟩, hnd3, hle3, ?_⟩
        · intro v
          rw [hf v, hlen v]
          by_cases he : v = e.toNode
          · subst he
            rw [if_pos rfl, if_pos rfl]
            push_cast
            ring
          · have hne : ¬(e.toNode = v) := fun h => he h.symm
            simp only [if_neg he, if_neg hne]
            push_cast
            ring
        · intro t ht
          rcases hnewsrc t ht with ⟨e2, he2, ht2⟩
          exact ⟨e2, List.mem_cons_of_mem _ he2, ht2⟩
        · intro v hv
          rcases hcross3 v hv with h | h
          · by_cases he : v = e.toNode
            · subst he
              rw [if_pos rfl] at h
              exact Or.inl (by omega)
            · rw [if_neg he] at h
              exact Or.inl h
          · exact Or.inr h

/-- An element of a take-prefix sits at an earlier position. -/
theorem mem_take_getElem {α : Type _} (l : List α) (i : Nat) (x : α) (h : x ∈ l.take i) :
    ∃ j, ∃ hj : j < l.length, j < i ∧ l[j] = x := by
  rcases List.mem_iff_getElem.mp h with ⟨j, hj, hx⟩
  have hj2 : j < i ∧ j < l.length := by
    rw [List.length_take] at hj
    omega
  refine ⟨j, hj2.2, hj2.1, ?_⟩
  rw [← hx]
  exact (List.getElem_take l).symm

/-- In a duplicate-free list, the element at position `i` does not occur
before position `i`. -/
theorem getElem_not_mem_take {α : Type _} (q : List α) (hnd : q.Nodup)
    (i : Nat) (hi : i < q.length) : q[i] ∉ q.take i := by
  intro hmem
  rcases mem_take_getElem q i _ hmem with ⟨j, hj, hji, hqj⟩
  have := (hnd.getElem_inj_iff).mp hqj
  omega

/-- `take (i+1)` appends the element at position `i`. -/
theorem take_succ_eq {α : Type _} (q : List α) (i : Nat) (hi : i < q.length) :
    q.take (i + 1) = q.take i ++ [q[i]] := by
  rw [List.take_succ]
  simp [List.getElem?_eq_getElem hi]

/-- One Kahn drain step preserves the invariant. -/
theorem kinv_step (ids : List Int) (edges : List Edge)
    (hval : ∀ e ∈ edges, e.fromNode ∈ ids ∧ e.toNode ∈ ids)
    (i : Nat) (indeg : Int → Int) (q : List Int)
    (hinv : KInv ids edges i indeg q) (hi : i < q.length) :
    KInv ids edges (i + 1)
      (decTargets (fanout edges (q.get ⟨i, hi⟩)) indeg q).1
      (decTargets (fanout edges (q.get ⟨i, hi⟩)) indeg q).2 := by
  have hq0 : ∀ v ∈ q, indeg v ≤ 0 := fun v hv => (hinv.memq v (hinv.sub v hv)).mp hv
  rcases decTargets_main (fanout edges (q.get ⟨i, hi⟩)) indeg q hinv.nodup hq0 with
    ⟨hf, ⟨new, hnew, hnewsrc⟩, hnd2, hle2, hcross2⟩
  have hgu : q[i] = q.get ⟨i, hi⟩ := rfl
  have hnotin : q.get ⟨i, hi⟩ ∉ q.take i := by
    have h := getElem_not_mem_take q hinv.nodup i hi
    rw [hgu] at h
    exact h
  have htake : q.take (i + 1) = q.take i ++ [q.get ⟨i, hi⟩] := by
    rw [take_succ_eq q i hi, hgu]
  have hformula : ∀ v, (decTargets (fanout edges (q.get ⟨i, hi⟩)) indeg q).1 v =
      inCount edges v - (decCnt edges (q.take (i + 1)) v : Int) := by
    intro v
    have h1 := hf v
    have h2 := hinv.formula v
    have h4 := decCnt_snoc edges (q.take i) (q.get ⟨i, hi⟩) v hnotin
    have h5 := fanout_filter edges (q.get ⟨i, hi⟩) v
    rw [h1, h2, htake, h4, h5]
    push_cast
    ring
  have htakeq : (decTargets (fanout edges (q.get ⟨i, hi⟩)) indeg q).2.take (i + 1) =
      q.take (i + 1) := by
    rw [hnew]
    exact List.take_append_of_le_length (by omega)
  have hformula2 : ∀ v, (decTargets (fanout edges (q.get ⟨i, hi⟩)) indeg q).1 v =
      inCount edges v -
        (decCnt edges ((decTargets (fanout edges (q.get ⟨i, hi⟩)) indeg q).2.take (i + 1)) v : Int) := by
    intro v
    rw [htakeq]
    exact hformula v
  refine ⟨hnd2, ?_, ?_, hformula2, ?_, ?_⟩
  · -- sub
    intro v hv
    rw [hnew] at hv
    rcases List.mem_append.mp hv with h | h
    · exact hinv.sub v h
    · rcases hnewsrc v h with ⟨e, he, hte⟩
      have he2 : e ∈ edges := List.mem_of_mem_filter he
      exact hte ▸ (hval e he2).2
  · -- ile
    rw [hnew, List.length_append]
    omega
  · -- memq
    intro v hv
    constructor
    · intro hq2
      exact hle2 v hq2
    · intro hle
      rcases hcross2 v hle with h | h
      · have hq2 := (hinv.memq v hv).mpr h
        rw [hnew]
        exact List.mem_append.mpr (Or.inl hq2)
      · exact h
  · -- topo
    intro k hk e he hte
    have hk2 : k < (q ++ new).length := by
      rw [← hnew]
      exact hk
    have hgk : (decTargets (fanout edges (q.get ⟨i, hi⟩)) indeg q).2[k] = (q ++ new)[k] :=
      List.getElem_of_eq hnew hk
    by_cases hkq : k < q.length
    · have hqk : (q ++ new)[k] = q[k] := List.getElem_append_left hkq
      have hte2 : e.toNode = q[k] := by rw [hte, hgk, hqk]
      obtain ⟨j, hj, hjk, hqj⟩ := hinv.topo k hkq e he hte2
      have hj2 : j < (decTargets (fanout edges (q.get ⟨i, hi⟩)) indeg q).2.length := by
        rw [hnew, List.length_append]
        omega
      refine ⟨j, hj2, hjk, ?_⟩
      have hgj : (decTargets (fanout edges (q.get ⟨i, hi⟩)) indeg q).2[j] = (q ++ new)[j] :=
        List.getElem_of_eq hnew hj2
      rw [hgj, List.getElem_append_left hj]
      exact hqj
    · -- the target was pushed during this step: its counter reached zero,
      -- so all its in-edges come from the processed prefix
      have ht : (decTargets (fanout edges (q.get ⟨i, hi⟩)) indeg q).2[k] ∈
          (decTargets (fanout edges (q.get ⟨i, hi⟩)) indeg q).2 := List.getElem_mem hk
      set t := (decTargets (fanout edges (q.get ⟨i, hi⟩)) indeg q).2[k] with htdef
      have htids : t ∈ ids := by
        rw [hnew] at ht
        rcases List.mem_append.mp ht with h | h
        · exact hinv.sub t h
        · rcases hnewsrc t h with ⟨e2, he2, hte2⟩
          exact hte2 ▸ (hval e2 (List.mem_of_mem_filter he2)).2
      have hle3 : (decTargets (fanout edges (q.get ⟨i, hi⟩)) indeg q).1 t ≤ 0 := hle2 t ht
      have hf3 := hformula t
      have hcle := decCnt_le_inCount edges (q.take (i + 1)) t
      have hzero : (decCnt edges (q.take (i + 1)) t : Int) = inCount edges t := by
        omega
      have hlencnt : (edges.filter (fun e2 => e2.toNode == t &&
          decide (e2.fromNode ∈ q.take (i + 1)))).length =
          (edges.filter (fun e2 => e2.toNode == t)).length := by
        have : decCnt edges (q.take (i + 1)) t =
            ((edges.filter (fun e2 => e2.toNode == t)).length : Nat) := by
          unfold inCount at hzero
          exact_mod_cast hzero
        unfold decCnt at this
        exact this
      have hsubl : List.Sublist
          (edges.filter (fun e2 => e2.toNode == t && decide (e2.fromNode ∈ q.take (i + 1))))
          (edges.filter (fun e2 => e2.toNode == t)) := by
        apply List.monotone_filter_right
        intro a ha
        simp only [Bool.and_eq_true] at ha
        exact ha.1
      have hfe := hsubl.eq_of_length hlencnt
      have hein : e ∈ edges.filter (fun e2 => e2.toNode == t) :=
        List.mem_filter.mpr ⟨he, by simpa using hte⟩
      rw [← hfe] at hein
      have hfrom : e.fromNode ∈ q.take (i + 1) := by
        have h := (List.mem_filter.mp hein).2
        simp only [Bool.and_eq_true] at h
        simpa using h.2
      obtain ⟨j, hj, hji, hqj⟩ := mem_take_getElem q (i + 1) e.fromNode hfrom
      have hj2 : j < (decTargets (fanout edges (q.get ⟨i, hi⟩)) indeg q).2.length := by
        rw [hnew, List.length_append]
        omega
      have hjk : j < k := by omega
      refine ⟨j, hj2, hjk, ?_⟩
      have hgj : (decTargets (fanout edges (q.get ⟨i, hi⟩)) indeg q).2[j] = (q ++ new)[j] :=
        List.getElem_of_eq hnew hj2
      rw [hgj, List.getElem_append_left hj]
      exact hqj

/-- The queue never exceeds the id list in length. -/
theorem kinv_qlen_le (ids : List Int) (edges : List Edge) (i : Nat)
    (indeg : Int → Int) (q : List Int) (hinv : KInv ids edges i indeg q) :
    q.length ≤ ids.length :=
  (List.subperm_of_subset hinv.nodup (fun x hx => hinv.sub x hx)).length_le

/-- The invariant holds at the seeded queue. -/
theorem kinv_init (ids : List Int) (edges : List Edge) (hnd : ids.Nodup) :
    KInv ids edges 0 (fun v => inCount edges v)
      (ids.filter (fun v => inCount edges v == 0)) := by
  refine ⟨hnd.filter _, fun v hv => List.mem_of_mem_filter hv, Nat.zero_le _, ?_, ?_, ?_⟩
  · intro v
    rw [List.take_zero, decCnt_nil]
    simp
  · intro v hv
    constructor
    · intro hq
      have h := List.of_mem_filter hq
      have h2 : inCount edges v = 0 := by simpa using h
      omega
    · intro hle
      have h0 := inCount_nonneg edges v
      have h2 : inCount edges v = 0 := le_antisymm hle h0
      exact List.mem_filter.mpr ⟨hv, by simpa using h2⟩
  · intro k hk e he hte
    exfalso
    have hmem : (ids.filter (fun v => inCount edges v == 0))[k] ∈
        ids.filter (fun v => inCount edges v == 0) := List.getElem_mem hk
    have h0 : inCount edges ((ids.filter (fun v => inCount edges v == 0))[k]) = 0 := by
      have hb := List.of_mem_filter hmem
      exact beq_iff_eq.mp hb
    have hin : e ∈ edges.filter
        (fun x => x.toNode == (ids.filter (fun v => inCount edges v == 0))[k]) :=
      List.mem_filter.mpr ⟨he, by simpa using hte⟩
    have hpos : 0 < (edges.filter
        (fun x => x.toNode == (ids.filter (fun v => inCount edges v == 0))[k])).length :=
      List.length_pos.mpr (List.ne_nil_of_mem hin)
    have h0b : ((edges.filter (fun x => x.toNode ==
        (ids.filter (fun v => inCount edges v == 0))[k])).length : Int) = 0 := h0
    omega

/-- The drain loop reaches a final invariant state with the whole queue
processed; the fuel `ids.length + 1` always suffices. -/
theorem kahnLoop_spec (ids : List Int) (edges : List Edge)
    (hval : ∀ e ∈ edges, e.fromNode ∈ ids ∧ e.toNode ∈ ids) :
    ∀ (fuel i : Nat) (indeg : Int → Int) (q : List Int),
      KInv ids edges i indeg q → ids.length + 1 ≤ fuel + i →
      ∃ i2, KInv ids edges i2 (kahnLoop edges fuel i indeg q).1
          (kahnLoop edges fuel i indeg q).2 ∧
        (kahnLoop edges fuel i indeg q).2.length ≤ i2 := by
  intro fuel
  induction fuel with
  | zero =>
      intro i indeg q hinv hfuel
      exfalso
      have h1 := kinv_qlen_le ids edges i indeg q hinv
      have h2 := hinv.ile
      omega
  | succ fuel ih =>
      intro i indeg q hinv hfuel
      by_cases h : i < q.length
      · have hstep : kahnLoop edges (fuel + 1) i indeg q =
            kahnLoop edges fuel (i + 1)
              (decTargets (fanout edges (q.get ⟨i, h⟩)) indeg q).1
              (decTargets (fanout edges (q.get ⟨i, h⟩)) indeg q).2 := by
          show (if h2 : i < q.length then
              kahnLoop edges fuel (i + 1)
                (decTargets (fanout edges (q.get ⟨i, h2⟩)) indeg q).1
                (decTargets (fanout edges (q.get ⟨i, h2⟩)) indeg q).2
            else (indeg, q)) = _
          rw [dif_pos h]
        rw [hstep]
        exact ih (i + 1) _ _ (kinv_step ids edges hval i indeg q hinv h) (by omega)
      · have hstep : kahnLoop edges (fuel + 1) i indeg q = (indeg, q) := by
          show (if h2 : i < q.length then
              kahnLoop edges fuel (i + 1)
                (decTargets (fanout edges (q.get ⟨i, h2⟩)) indeg q).1
                (decTargets (fanout edges (q.get ⟨i, h2⟩)) indeg q).2
            else (indeg, q)) = _
          rw [dif_neg h]
        rw [hstep]
        have h2 := hinv.ile
        refine ⟨i, hinv, ?_⟩
        show q.length ≤ i
        omega

/-- The full Kahn run ends in an invariant state with every queue position
processed. -/
theorem kahn_final (ids : List Int) (edges : List Edge) (hnd : ids.Nodup)
    (hval : ∀ e ∈ edges, e.fromNode ∈ ids ∧ e.toNode ∈ ids) :
    ∃ i2, KInv ids edges i2 (kahn ids edges).1 (kahn ids edges).2 ∧
      (kahn ids edges).2.length ≤ i2 :=
  kahnLoop_spec ids edges hval (ids.length + 1) 0 _ _ (kinv_init ids edges hnd) (by omega)

/-- If every counter drains to zero, the edge set is acyclic: the final
queue is a topological order. -/
theorem kahn_complete (ids : List Int) (edges : List Edge) (hnd : ids.Nodup)
    (hval : ∀ e ∈ edges, e.fromNode ∈ ids ∧ e.toNode ∈ ids)
    (hzero : ∀ v ∈ ids, (kahn ids edges).1 v = 0) :
    ¬ HasCycle edges := by
  obtain ⟨i2, hinv, hle⟩ := kahn_final ids edges hnd hval
  rintro ⟨v, hcyc⟩
  have hall : ∀ w ∈ ids, w ∈ (kahn ids edges).2 := fun w hw =>
    (hinv.memq w hw).mpr (le_of_eq (hzero w hw))
  have hstep : ∀ a b, EdgeStep edges a b →
      List.indexOf a (kahn ids edges).2 < List.indexOf b (kahn ids edges).2 := by
    rintro a b ⟨e, he, hfa, htb⟩
    have hbq : b ∈ (kahn ids edges).2 := hall b (htb ▸ (hval e he).2)
    have haq : a ∈ (kahn ids edges).2 := hall a (hfa ▸ (hval e he).1)
    have hkb : List.indexOf b (kahn ids edges).2 < (kahn ids edges).2.length :=
      List.indexOf_lt_length.mpr hbq
    have hgb : (kahn ids edges).2[List.indexOf b (kahn ids edges).2] = b :=
      List.getElem_indexOf hkb
    have htb2 : e.toNode = (kahn ids edges).2[List.indexOf b (kahn ids edges).2] := by
      rw [hgb]
      exact htb
    obtain ⟨j, hj, hjk, hqj⟩ := hinv.topo (List.indexOf b (kahn ids edges).2) hkb e he htb2
    have hja : (kahn ids edges).2[j] = a := by rw [hqj, hfa]
    have hia : List.indexOf a (kahn ids edges).2 < (kahn ids edges).2.length :=
      List.indexOf_lt_length.mpr haq
    have hga : (kahn ids edges).2[List.indexOf a (kahn ids edges).2] = a :=
      List.getElem_indexOf hia
    have hij : List.indexOf a (kahn ids edges).2 = j :=
      (hinv.nodup.getElem_inj_iff).mp (hga.trans hja.symm)
    omega
  have hmono : ∀ a b, Relation.TransGen (EdgeStep edges) a b →
      List.indexOf a (kahn ids edges).2 < List.indexOf b (kahn ids edges).2 := by
    intro a b h
    induction h with
    | single h1 => exact hstep _ _ h1
    | tail h1 h2 ih => exact lt_trans ih (hstep _ _ h2)
  exact lt_irrefl _ (hmono v v hcyc)

/-- If some counter stays non-zero, a directed cycle exists: every stuck
node has a stuck in-neighbour, and iterating that choice must repeat. -/
theorem kahn_sound (ids : List Int) (edges : List Edge) (hnd : ids.Nodup)
    (hval : ∀ e ∈ edges, e.fromNode ∈ ids ∧ e.toNode ∈ ids)
    (v0 : Int) (hv0 : v0 ∈ ids) (hnz : (kahn ids edges).1 v0 ≠ 0) :
    HasCycle edges := by
  obtain ⟨i2, hinv, hle⟩ := kahn_final ids edges hnd hval
  have htake : (kahn ids edges).2.take i2 = (kahn ids edges).2 :=
    List.take_of_length_le hle
  set S := ids.filter (fun v => !((kahn ids edges).1 v == 0)) with hSdef
  have hv0S : v0 ∈ S := List.mem_filter.mpr ⟨hv0, by simpa using hnz⟩
  have hSpos : ∀ v ∈ S, 0 < (kahn ids edges).1 v := by
    intro v hv
    have hvne : ¬((kahn ids edges).1 v = 0) := by simpa using List.of_mem_filter hv
    have hf := hinv.formula v
    rw [htake] at hf
    have hcle := decCnt_le_inCount edges (kahn ids edges).2 v
    omega
  have hpred : ∀ v ∈ S, ∃ e ∈ edges, e.toNode = v ∧ e.fromNode ∈ S := by
    intro v hv
    have hpos := hSpos v hv
    have hf := hinv.formula v
    rw [htake] at hf
    have hlt : (decCnt edges (kahn ids edges).2 v : Int) < inCount edges v := by omega
    have hex : ∃ e ∈ edges, e.toNode = v ∧ e.fromNode ∉ (kahn ids edges).2 := by
      by_contra hno
      push_neg at hno
      have heq2 : edges.filter
          (fun e => e.toNode == v && decide (e.fromNode ∈ (kahn ids edges).2)) =
          edges.filter (fun e => e.toNode == v) := by
        refine List.filter_congr ?_
        intro e he
        by_cases h1 : e.toNode = v
        · have h2 : e.fromNode ∈ (kahn ids edges).2 := hno e he h1
          simp [h1, h2]
        · have hne : (e.toNode == v) = false := by simpa using h1
          simp [hne]
      have hcnt : decCnt edges (kahn ids edges).2 v =
          (edges.filter (fun e => e.toNode == v)).length := by
        unfold decCnt
        rw [heq2]
      unfold inCount at hlt
      omega
    obtain ⟨e, he, hte, hfq⟩ := hex
    refine ⟨e, he, hte, ?_⟩
    have hfi : e.fromNode ∈ ids := (hval e he).1
    have hgt : ¬ (kahn ids edges).1 e.fromNode ≤ 0 :=
      fun hle2 => hfq ((hinv.memq _ hfi).mpr hle2)
    rw [hSdef]
    refine List.mem_filter.mpr ⟨hfi, ?_⟩
    have hne2 : (kahn ids edges).1 e.fromNode ≠ 0 := by omega
    simpa using hne2
  set f : Int → Int := fun v =>
    match edges.find? (fun e => e.toNode == v && decide (e.fromNode ∈ S)) with
    | some e => e.fromNode
    | none => v
    with hfdef
  have hfS : ∀ v ∈ S, f v ∈ S ∧ EdgeStep edges (f v) v := by
    intro v hv
    obtain ⟨e, he, hte, hfs⟩ := hpred v hv
    cases hfind : edges.find? (fun e2 => e2.toNode == v && decide (e2.fromNode ∈ S)) with
    | none =>
        exfalso
        have hsome : (edges.find? (fun e2 => e2.toNode == v &&
            decide (e2.fromNode ∈ S))).isSome = true :=
          List.find?_isSome.mpr ⟨e, he, by simp [hte, hfs]⟩
        rw [hfind] at hsome
        simp at hsome
    | some e2 =>
        have hp := List.find?_some hfind
        simp only [Bool.and_eq_true] at hp
        have hte2 : e2.toNode = v := by simpa using hp.1
        have hfs2 : e2.fromNode ∈ S := by simpa using hp.2
        have hfv : f v = e2.fromNode := by
          rw [hfdef]
          dsimp only []
          rw [hfind]
        rw [hfv]
        exact ⟨hfs2, ⟨e2, List.mem_of_find?_eq_some hfind, rfl, hte2⟩⟩
  have hiter : ∀ n : Nat, f^[n] v0 ∈ S := by
    intro n
    induction n with
    | zero => simpa using hv0S
    | succ n ih =>
        rw [Function.iterate_succ_apply']
        exact (hfS _ ih).1
  have hchain : ∀ (d : Nat) (x : Int), x ∈ S → 0 < d →
      Relation.TransGen (EdgeStep edges) (f^[d] x) x := by
    intro d
    induction d with
    | zero =>
        intro x hx h0
        exact absurd h0 (lt_irrefl 0)
    | succ d ih =>
        intro x hx hd
        by_cases hd0 : d = 0
        · subst hd0
          rw [Function.iterate_one]
          exact Relation.TransGen.single (hfS x hx).2
        · rw [Function.iterate_succ_apply]
          exact Relation.TransGen.tail (ih (f x) (hfS x hx).1 (by omega)) (hfS x hx).2
  have hcard : (S.toFinset).card < (Finset.range (S.length + 1)).card := by
    rw [Finset.card_range]
    exact Nat.lt_succ_of_le (List.toFinset_card_le S)
  obtain ⟨a, ha, b, hb, hab, heq⟩ :=
    Finset.exists_ne_map_eq_of_card_lt_of_maps_to hcard
      (fun n _ => List.mem_toFinset.mpr (hiter n))
  rcases Nat.lt_or_ge a b with hlt | hge
  · have h1 : f^[b] v0 = f^[b - a] (f^[a] v0) := by
      rw [← Function.iterate_add_apply]
      congr 1
      omega
    have h2 := hchain (b - a) (f^[a] v0) (hiter a) (by omega)
    rw [← h1, heq] at h2
    exact ⟨f^[b] v0, h2⟩
  · have hba : b < a := by omega
    have h1 : f^[a] v0 = f^[a - b] (f^[b] v0) := by
      rw [← Function.iterate_add_apply]
      congr 1
      omega
    have h2 := hchain (a - b) (f^[b] v0) (hiter b) (by omega)
    rw [← h1, ← heq] at h2
    exact ⟨f^[a] v0, h2⟩

/-- The Kahn leftover test decides precisely the existence of a cycle. -/
theorem kahnLeftover_iff_cycle (ids : List Int) (edges : List Edge) (hnd : ids.Nodup)
    (hval : ∀ e ∈ edges, e.fromNode ∈ ids ∧ e.toNode ∈ ids) :
    (kahnLeftover ids edges = true ↔ HasCycle edges) := by
  constructor
  · intro h
    unfold kahnLeftover at h
    rw [List.any_eq_true] at h
    obtain ⟨v, hv, hnz⟩ := h
    exact kahn_sound ids edges hnd hval v hv (by simpa using hnz)
  · intro hcyc
    by_contra h
    have hzero : ∀ v ∈ ids, (kahn ids edges).1 v = 0 := by
      intro v hv
      by_contra hnz
      refine h ?_
      unfold kahnLeftover
      rw [List.any_eq_true]
      exact ⟨v, hv, by simpa using hnz⟩
    exact kahn_complete ids edges hnd hval hzero hcyc


/-- Per-run setup keeps the node id list. -/
theorem ids_runSetup (g : Graph) : idsOf (runSetup g) = idsOf g := by
  unfold idsOf runSetup
  rw [List.map_map]
  rfl

/-- Valid edges have both endpoints among the graph\x27s node ids. -/
theorem wf_edge_endpoints (g : Graph) (hwf : WF g) :
    ∀ e ∈ g.edges, e.fromNode ∈ idsOf g ∧ e.toNode ∈ idsOf g := by
  intro e he
  have hok := hwf.2.1 e he
  unfold edgeOkB at hok
  cases hfrom : getNode g e.fromNode with
  | none =>
      rw [hfrom] at hok
      dsimp only [] at hok
      simp at hok
  | some a =>
      rw [hfrom] at hok
      cases hto : getNode g e.toNode with
      | none => rw [hto] at hok; simp at hok
      | some b =>
          rw [hto] at hok
          obtain ⟨ha, haid⟩ := getNode_some g e.fromNode a hfrom
          obtain ⟨hb, hbid⟩ := getNode_some g e.toNode b hto
          constructor
          · exact List.mem_map.mpr ⟨a, ha, haid⟩
          · exact List.mem_map.mpr ⟨b, hb, hbid⟩

/-- A cyclic schedule aborts the run before any node task. -/
theorem runTaskflow_cycle (g0 : Graph)
    (hleft : kahnLeftover (idsOf (runSetup g0)) g0.edges = true) :
    runGraphTaskflow g0 =
      ({ runSetup g0 with
          controlEdges := buildControlEdges (runSetup g0) g0.edges
          lastError := "Cycle detected in graph" }, false) := by
  unfold runGraphTaskflow
  dsimp only []
  have hleft2 : kahnLeftover (List.map (fun n => n.id) (runSetup g0).nodes)
      ((runSetup g0).edges) = true := hleft
  rw [if_pos hleft2]
  rfl

/-- When every recorded state is Pending, every query returns Pending. -/
theorem stateOf_pending_all (g : Graph)
    (h : ∀ kv ∈ g.executionStates, kv.2 = ExecState.pending) (x : Int) :
    stateOf g x = ExecState.pending := by
  unfold stateOf
  cases hf : g.executionStates.find? (fun kv => kv.1 == x) with
  | none => rfl
  | some kv =>
      have h2 := h kv (List.mem_of_find?_eq_some hf)
      simp [h2]

/-- **C5.**  For every well-formed graph, the Kahn leftover test of
`build_schedule` returns true exactly when the declared data edges contain a
directed cycle; and on a cyclic graph `engine_graph_run` fails with code 2
and last error "Cycle detected in graph" (which contains "Cycle") before any
node task runs: every node\x27s outputs stay empty and every execution state
stays Pending. -/
theorem c5_cycle_detection (g : Graph) (hwf : WF g) :
    (kahnLeftover (idsOf g) g.edges = true ↔ HasCycle g.edges) ∧
    (HasCycle g.edges →
      (engineGraphRun g).code = 2 ∧
      (engineGraphRun g).g.lastError = "Cycle detected in graph" ∧
      (engineGraphRun g).msg = some "Cycle detected in graph" ∧
      List.IsInfix "Cycle".data "Cycle detected in graph".data ∧
      (∀ n ∈ (engineGraphRun g).g.nodes, n.outputValues = []) ∧
      (∀ x : Int, stateOf (engineGraphRun g).g x = ExecState.pending)) := by
  have hnd : (idsOf g).Nodup := hwf.1
  have hval := wf_edge_endpoints g hwf
  have hiff := kahnLeftover_iff_cycle (idsOf g) g.edges hnd hval
  refine ⟨hiff, ?_⟩
  intro hcyc
  have hleft : kahnLeftover (idsOf (runSetup g)) g.edges = true := by
    rw [ids_runSetup]
    exact hiff.mpr hcyc
  have hrun := runTaskflow_cycle g hleft
  have hrun2 : engineGraphRun g =
      { g := { runSetup g with
            controlEdges := buildControlEdges (runSetup g) g.edges
            lastError := "Cycle detected in graph" }
        code := 2
        msg := some "Cycle detected in graph" } := by
    unfold engineGraphRun
    rw [hrun]
    rfl
  rw [hrun2]
  refine ⟨rfl, rfl, rfl, by decide, ?_, ?_⟩
  · intro n hn
    have hn2 : n ∈ g.nodes.map (fun m =>
        { m with inputValues := m.type.inputs.map (fun _ => Value.num 0)
                 outputValues := [] }) := hn
    rcases List.mem_map.mp hn2 with ⟨m, hm, hmn⟩
    rw [← hmn]
  · intro x
    refine stateOf_pending_all _ ?_ x
    intro kv hkv
    have hkv2 : kv ∈ g.nodes.map (fun m => (m.id, ExecState.pending)) := hkv
    rcases List.mem_map.mp hkv2 with ⟨m, hm, hmk⟩
    rw [← hmk]

/-- The C5 theorem applied to the two-node cycle `s4Graph`. -/
theorem c5_cycle_detection_witness :
    WF s4Graph ∧
    ((kahnLeftover (idsOf s4Graph) s4Graph.edges = true ↔ HasCycle s4Graph.edges) ∧
    (HasCycle s4Graph.edges →
      (engineGraphRun s4Graph).code = 2 ∧
      (engineGraphRun s4Graph).g.lastError = "Cycle detected in graph" ∧
      (engineGraphRun s4Graph).msg = some "Cycle detected in graph" ∧
      List.IsInfix "Cycle".data "Cycle detected in graph".data ∧
      (∀ n ∈ (engineGraphRun s4Graph).g.nodes, n.outputValues = []) ∧
      (∀ x : Int, stateOf (engineGraphRun s4Graph).g x = ExecState.pending))) :=
  ⟨by decide, c5_cycle_detection s4Graph (by decide)⟩


end Eng
